import Mathlib

/-!
Verification of the GetSocial content-approval application (src/app.py).

The development shallowly embeds the Python source: the SQLAlchemy rows
become Lean structures, each Flask request handler becomes a pure function
from an application state and its request inputs to a result and the state
that is durably committed when the request finishes, and Python exceptions
become explicit error values.  Two facts about the source drive much of the
error modelling:

* Line 6 of app.py, `from datetime import datetime, timezone`, rebinds the
  name `datetime` from the module imported on line 5 to the class.  As a
  consequence `datetime.timedelta` on line 146 and `datetime.date.today()`
  on line 359 raise AttributeError whenever they are evaluated.
* In apply_workflow, the Approval lookup on line 138 uses `user.id` outside
  the `if user` guard of line 136, so a username that resolves to no User
  raises AttributeError on the None value.

Workflow components are stored as a JSON string (json.dumps on line 395,
json.loads on lines 127, 295 and 423).  The JSON layer below models the
Python json module on documents built from null, booleans, strings, arrays
and objects, which covers the workflow document grammar of the application
(numbers do not occur in workflow documents; the model printer emits no
whitespace and the model parser accepts none, which is immaterial for the
documents the application itself writes).  Uncommitted SQLAlchemy session
mutations are discarded when a request dies with an exception, so an
operation that raises after an intermediate commit returns the state of
that last commit.
-/


inductive Json where
  | null : Json
  | bool (b : Bool) : Json
  | str (s : String) : Json
  | arr (elems : List Json) : Json
  | obj (fields : List (String × Json)) : Json
deriving Repr

def hexDigitChar (n : Nat) : Char :=
  if n < 10 then Char.ofNat (48 + n) else Char.ofNat (87 + n)

def hexVal (c : Char) : Option Nat :=
  if 48 ≤ c.toNat ∧ c.toNat ≤ 57 then some (c.toNat - 48)
  else if 97 ≤ c.toNat ∧ c.toNat ≤ 102 then some (c.toNat - 87)
  else if 65 ≤ c.toNat ∧ c.toNat ≤ 70 then some (c.toNat - 55)
  else none

theorem hexVal_hexDigitChar : ∀ n, n < 16 → hexVal (hexDigitChar n) = some n := by decide

def escapeChar (c : Char) : List Char :=
  if c = '"' then ['\\', '"']
  else if c = '\\' then ['\\', '\\']
  else if c.toNat < 32 then
    ['\\', 'u', '0', '0', hexDigitChar (c.toNat / 16), hexDigitChar (c.toNat % 16)]
  else [c]

def escapeList : List Char → List Char
  | [] => []
  | c :: cs => escapeChar c ++ escapeList cs

def parseStringBody : List Char → Option (List Char × List Char)
  | [] => none
  | c :: cs =>
    if c = '"' then some ([], cs)
    else if c = '\\' then
      match cs with
      | [] => none
      | e :: cs' =>
        if e = '"' then (parseStringBody cs').map (fun p => ('"' :: p.1, p.2))
        else if e = '\\' then (parseStringBody cs').map (fun p => ('\\' :: p.1, p.2))
        else if e = '/' then (parseStringBody cs').map (fun p => ('/' :: p.1, p.2))
        else if e = 'n' then (parseStringBody cs').map (fun p => (Char.ofNat 10 :: p.1, p.2))
        else if e = 't' then (parseStringBody cs').map (fun p => (Char.ofNat 9 :: p.1, p.2))
        else if e = 'r' then (parseStringBody cs').map (fun p => (Char.ofNat 13 :: p.1, p.2))
        else if e = 'b' then (parseStringBody cs').map (fun p => (Char.ofNat 8 :: p.1, p.2))
        else if e = 'f' then (parseStringBody cs').map (fun p => (Char.ofNat 12 :: p.1, p.2))
        else if e = 'u' then
          match cs' with
          | h1 :: h2 :: h3 :: h4 :: cs'' =>
            match hexVal h1, hexVal h2, hexVal h3, hexVal h4 with
            | some v1, some v2, some v3, some v4 =>
              (parseStringBody cs'').map
                (fun p => (Char.ofNat (((v1 * 16 + v2) * 16 + v3) * 16 + v4) :: p.1, p.2))
            | _, _, _, _ => none
          | _ => none
        else none
    else if c.toNat < 32 then none
    else (parseStringBody cs).map (fun p => (c :: p.1, p.2))
termination_by structural x => x

theorem psb_close (rest : List Char) : parseStringBody ('"' :: rest) = some ([], rest) := by
  rw [parseStringBody.eq_def]
  simp only [Char.reduceEq, reduceIte]

theorem psb_esc_quote (cs : List Char) :
    parseStringBody ('\\' :: '"' :: cs) =
      (parseStringBody cs).map (fun p => ('"' :: p.1, p.2)) := by
  rw [parseStringBody.eq_def]
  simp only [Char.reduceEq, reduceIte]

theorem psb_esc_back (cs : List Char) :
    parseStringBody ('\\' :: '\\' :: cs) =
      (parseStringBody cs).map (fun p => ('\\' :: p.1, p.2)) := by
  rw [parseStringBody.eq_def]
  simp only [Char.reduceEq, reduceIte]

theorem psb_esc_u (a b c d : Char) (r : List Char) :
    parseStringBody ('\\' :: 'u' :: a :: b :: c :: d :: r) =
      match hexVal a, hexVal b, hexVal c, hexVal d with
      | some v1, some v2, some v3, some v4 =>
        (parseStringBody r).map
          (fun p => (Char.ofNat (((v1 * 16 + v2) * 16 + v3) * 16 + v4) :: p.1, p.2))
      | _, _, _, _ => none := by
  rw [parseStringBody.eq_def]
  simp only [Char.reduceEq, reduceIte]

theorem psb_normal (c : Char) (cs : List Char) (h1 : ¬ c = '"') (h2 : ¬ c = '\\')
    (h3 : ¬ c.toNat < 32) :
    parseStringBody (c :: cs) = (parseStringBody cs).map (fun p => (c :: p.1, p.2)) := by
  rw [parseStringBody.eq_def]
  simp only [if_neg h1, if_neg h2, if_neg h3]

theorem parseStringBody_escape (cs : List Char) (rest : List Char) :
    parseStringBody (escapeList cs ++ '"' :: rest) = some (cs, rest) := by
  induction cs with
  | nil => simp [escapeList, psb_close]
  | cons c cs ih =>
    by_cases h1 : c = '"'
    · subst h1
      simp [escapeList, escapeChar, psb_esc_quote, ih]
    · by_cases h2 : c = '\\'
      · subst h2
        simp [escapeList, escapeChar, psb_esc_back, ih]
      · by_cases h3 : c.toNat < 32
        · have e1 : hexVal (hexDigitChar (c.toNat / 16)) = some (c.toNat / 16) :=
            hexVal_hexDigitChar _ (by omega)
          have e2 : hexVal (hexDigitChar (c.toNat % 16)) = some (c.toNat % 16) :=
            hexVal_hexDigitChar _ (by omega)
          have hv0 : hexVal '0' = some 0 := by decide
          simp only [escapeList, escapeChar, if_pos h3, if_neg h1, if_neg h2, List.append_assoc,
            List.cons_append, List.nil_append, psb_esc_u, e1, e2, hv0, ih]
          have h4 : ((0 * 16 + 0) * 16 + c.toNat / 16) * 16 + c.toNat % 16 = c.toNat := by omega
          simp only [Option.map, h4, Char.ofNat_toNat]
        · simp only [escapeList, escapeChar, if_neg h1, if_neg h2, if_neg h3, List.cons_append,
            List.nil_append, psb_normal c _ h1 h2 h3, ih, Option.map]

mutual
def dumpJson : Json → List Char
  | .null => ['n','u','l','l']
  | .bool false => ['f','a','l','s','e']
  | .bool true => ['t','r','u','e']
  | .str s => '"' :: (escapeList s.data ++ ['"'])
  | .arr [] => ['[', ']']
  | .arr (x :: xs) => '[' :: (dumpJson x ++ (dumpItems xs ++ [']']))
  | .obj [] => [Char.ofNat 123, Char.ofNat 125]
  | .obj ((k, v) :: xs) =>
      Char.ofNat 123 ::
        (('"' :: (escapeList k.data ++ ['"', ':'])) ++
          (dumpJson v ++ (dumpFields xs ++ [Char.ofNat 125])))

def dumpItems : List Json → List Char
  | [] => []
  | x :: xs => ',' :: (dumpJson x ++ dumpItems xs)

def dumpFields : List (String × Json) → List Char
  | [] => []
  | (k, v) :: xs =>
      ',' :: (('"' :: (escapeList k.data ++ ['"', ':'])) ++ (dumpJson v ++ dumpFields xs))
end

mutual
def needJson : Json → Nat
  | .null => 1
  | .bool _ => 1
  | .str _ => 1
  | .arr l => 1 + needItems l
  | .obj l => 1 + needFields l

def needItems : List Json → Nat
  | [] => 1
  | x :: xs => 1 + max (needJson x) (needItems xs)

def needFields : List (String × Json) → Nat
  | [] => 1
  | (_, v) :: xs => 1 + max (needJson v) (needFields xs)
end

mutual
def parseJson : Nat → List Char → Option (Json × List Char)
  | 0, _ => none
  | f+1, cs =>
    match cs with
    | [] => none
    | c :: r =>
      if c = 'n' then
        match r with
        | 'u' :: 'l' :: 'l' :: r' => some (.null, r')
        | _ => none
      else if c = 't' then
        match r with
        | 'r' :: 'u' :: 'e' :: r' => some (.bool true, r')
        | _ => none
      else if c = 'f' then
        match r with
        | 'a' :: 'l' :: 's' :: 'e' :: r' => some (.bool false, r')
        | _ => none
      else if c = '"' then
        (parseStringBody r).map (fun p => (.str (String.mk p.1), p.2))
      else if c = '[' then
        match r with
        | [] => none
        | c2 :: r2 =>
          if c2 = ']' then some (.arr [], r2)
          else
            match parseItems f (c2 :: r2) with
            | some (xs, ']' :: r') => some (.arr xs, r')
            | _ => none
      else if c = Char.ofNat 123 then
        match r with
        | [] => none
        | c2 :: r2 =>
          if c2 = Char.ofNat 125 then some (.obj [], r2)
          else
            match parseFields f (c2 :: r2) with
            | none => none
            | some (fs, rest) =>
              match rest with
              | [] => none
              | c3 :: r3 => if c3 = Char.ofNat 125 then some (.obj fs, r3) else none
      else none

def parseItems : Nat → List Char → Option (List Json × List Char)
  | 0, _ => none
  | f+1, cs =>
    match parseJson f cs with
    | none => none
    | some (x, rest) =>
      match rest with
      | [] => some ([x], [])
      | c :: rest' =>
        if c = ',' then
          match parseItems f rest' with
          | some (xs, rest'') => some (x :: xs, rest'')
          | none => none
        else some ([x], c :: rest')

def parseFields : Nat → List Char → Option (List (String × Json) × List Char)
  | 0, _ => none
  | f+1, cs =>
    match cs with
    | [] => none
    | c :: r =>
      if c = '"' then
        match parseStringBody r with
        | none => none
        | some (k, r2) =>
          match r2 with
          | [] => none
          | c2 :: r3 =>
            if c2 = ':' then
              match parseJson f r3 with
              | none => none
              | some (v, rest) =>
                match rest with
                | [] => some ([(String.mk k, v)], [])
                | c3 :: rest' =>
                  if c3 = ',' then
                    match parseFields f rest' with
                    | some (fs, rest'') => some ((String.mk k, v) :: fs, rest'')
                    | none => none
                  else some ([(String.mk k, v)], c3 :: rest')
            else none
      else none
end

theorem pj_null (f : Nat) (r : List Char) :
    parseJson (f+1) ('n' :: 'u' :: 'l' :: 'l' :: r) = some (.null, r) := by
  rw [parseJson.eq_def]
  simp only [Char.reduceEq, reduceIte]

theorem pj_true (f : Nat) (r : List Char) :
    parseJson (f+1) ('t' :: 'r' :: 'u' :: 'e' :: r) = some (.bool true, r) := by
  rw [parseJson.eq_def]
  simp only [Char.reduceEq, reduceIte]

theorem pj_false (f : Nat) (r : List Char) :
    parseJson (f+1) ('f' :: 'a' :: 'l' :: 's' :: 'e' :: r) = some (.bool false, r) := by
  rw [parseJson.eq_def]
  simp only [Char.reduceEq, reduceIte]

theorem pj_str (f : Nat) (r : List Char) :
    parseJson (f+1) ('"' :: r) =
      (parseStringBody r).map (fun p => (.str (String.mk p.1), p.2)) := by
  rw [parseJson.eq_def]
  simp only [Char.reduceEq, reduceIte]

theorem pj_arr_empty (f : Nat) (r : List Char) :
    parseJson (f+1) ('[' :: ']' :: r) = some (.arr [], r) := by
  rw [parseJson.eq_def]
  simp only [Char.reduceEq, reduceIte]

theorem pj_arr_go (f : Nat) (c2 : Char) (r2 : List Char) (h : ¬ c2 = ']') :
    parseJson (f+1) ('[' :: c2 :: r2) =
      (match parseItems f (c2 :: r2) with
       | some (xs, ']' :: r') => some (.arr xs, r')
       | _ => none) := by
  rw [parseJson.eq_def]
  simp only [Char.reduceEq, reduceIte, if_neg h]

theorem pj_obj_empty (f : Nat) (r : List Char) :
    parseJson (f+1) (Char.ofNat 123 :: Char.ofNat 125 :: r) = some (.obj [], r) := by
  rw [parseJson.eq_def]
  simp only [Char.reduceEq, reduceIte]

theorem pj_obj_go (f : Nat) (c2 : Char) (r2 : List Char) (h : ¬ c2 = Char.ofNat 125) :
    parseJson (f+1) (Char.ofNat 123 :: c2 :: r2) =
      (match parseFields f (c2 :: r2) with
       | none => none
       | some (fs, rest) =>
         match rest with
         | [] => none
         | c3 :: r3 => if c3 = Char.ofNat 125 then some (.obj fs, r3) else none) := by
  rw [parseJson.eq_def]
  simp only [Char.reduceEq, reduceIte, if_neg h]

theorem pi_succ (f : Nat) (cs : List Char) :
    parseItems (f+1) cs =
      (match parseJson f cs with
       | none => none
       | some (x, rest) =>
         match rest with
         | [] => some ([x], [])
         | c :: rest' =>
           if c = ',' then
             match parseItems f rest' with
             | some (xs, rest'') => some (x :: xs, rest'')
             | none => none
           else some ([x], c :: rest')) := by
  rw [parseItems.eq_def]

theorem pf_succ (f : Nat) (cs : List Char) :
    parseFields (f+1) cs =
      (match cs with
       | [] => none
       | c :: r =>
         if c = '"' then
           match parseStringBody r with
           | none => none
           | some (k, r2) =>
             match r2 with
             | [] => none
             | c2 :: r3 =>
               if c2 = ':' then
                 match parseJson f r3 with
                 | none => none
                 | some (v, rest) =>
                   match rest with
                   | [] => some ([(String.mk k, v)], [])
                   | c3 :: rest' =>
                     if c3 = ',' then
                       match parseFields f rest' with
                       | some (fs, rest'') => some ((String.mk k, v) :: fs, rest'')
                       | none => none
                     else some ([(String.mk k, v)], c3 :: rest')
               else none
         else none) := by
  rw [parseFields.eq_def]

theorem dump_head (j : Json) :
    ∃ c tl, dumpJson j = c :: tl ∧ ¬ c = ']' ∧ ¬ c = ',' ∧ ¬ c = Char.ofNat 125 := by
  have good : ∀ c : Char, c ∈ ['n', 'f', 't', '"', '[', Char.ofNat 123] →
      ¬ c = ']' ∧ ¬ c = ',' ∧ ¬ c = Char.ofNat 125 := by decide
  cases j with
  | null => exact ⟨'n', _, rfl, good 'n' (by decide)⟩
  | bool b =>
    cases b with
    | false => exact ⟨'f', _, rfl, good 'f' (by decide)⟩
    | true => exact ⟨'t', _, rfl, good 't' (by decide)⟩
  | str s => exact ⟨'"', _, rfl, good '"' (by decide)⟩
  | arr l =>
    cases l with
    | nil => exact ⟨'[', _, rfl, good '[' (by decide)⟩
    | cons x xs => exact ⟨'[', _, rfl, good '[' (by decide)⟩
  | obj l =>
    cases l with
    | nil => exact ⟨Char.ofNat 123, _, rfl, good (Char.ofNat 123) (by decide)⟩
    | cons kv xs =>
      obtain ⟨k, v⟩ := kv
      exact ⟨Char.ofNat 123, _, rfl, good (Char.ofNat 123) (by decide)⟩


theorem needJson_pos (j : Json) : 1 ≤ needJson j := by
  cases j <;> simp [needJson]

theorem needItems_pos (l : List Json) : 1 ≤ needItems l := by
  cases l <;> simp [needItems]

theorem needFields_pos (l : List (String × Json)) : 1 ≤ needFields l := by
  cases l with
  | nil => simp [needFields]
  | cons kv xs => obtain ⟨k, v⟩ := kv; simp [needFields]

def headNotComma : List Char → Prop
  | [] => True
  | c :: _ => ¬ c = ','


theorem json_sizeOf_pos (j : Json) : 1 ≤ sizeOf j := by
  cases j <;> simp

theorem rt_main : ∀ n : Nat,
    (∀ j : Json, sizeOf j ≤ n → ∀ f rest, needJson j ≤ f →
      parseJson f (dumpJson j ++ rest) = some (j, rest)) ∧
    (∀ (x : Json) (xs : List Json), 1 + sizeOf x + sizeOf xs ≤ n → ∀ f t,
      needItems (x :: xs) ≤ f → headNotComma t →
      parseItems f (dumpJson x ++ (dumpItems xs ++ t)) = some (x :: xs, t)) ∧
    (∀ (k : String) (v : Json) (xs : List (String × Json)), 1 + sizeOf v + sizeOf xs ≤ n →
      ∀ f t, needFields ((k, v) :: xs) ≤ f → headNotComma t →
      parseFields f (('"' :: (escapeList k.data ++ ['"', ':'])) ++
        (dumpJson v ++ (dumpFields xs ++ t))) = some ((k, v) :: xs, t)) := by
  intro n
  induction n using Nat.strong_induction_on with
  | _ n ih =>
    refine ⟨?_, ?_, ?_⟩
    · -- parseJson round trip
      intro j hsz f rest hf
      have hpos := needJson_pos j
      cases f with
      | zero => omega
      | succ f =>
        cases j with
        | null => exact pj_null f rest
        | bool b =>
          cases b with
          | true => exact pj_true f rest
          | false => exact pj_false f rest
        | str s =>
          show parseJson (f+1) (('"' :: (escapeList s.data ++ ['"'])) ++ rest) = _
          rw [List.cons_append, List.append_assoc, List.singleton_append, pj_str,
            parseStringBody_escape]
          rfl
        | arr l =>
          cases l with
          | nil => exact pj_arr_empty f rest
          | cons x xs =>
            have hn : needItems (x :: xs) ≤ f := by
              have h1 : needJson (.arr (x :: xs)) = 1 + needItems (x :: xs) := rfl
              omega
            have hsz1 : sizeOf (Json.arr (x :: xs)) = 2 + sizeOf x + sizeOf xs := by
              simp
              omega
            have hlt : n - 1 < n := by omega
            have hcall : 1 + sizeOf x + sizeOf xs ≤ n - 1 := by omega
            obtain ⟨c0, tl, hd, hc1, hc2, hc3⟩ := dump_head x
            have hin : dumpJson (.arr (x :: xs)) ++ rest =
                '[' :: (c0 :: (tl ++ (dumpItems xs ++ (']' :: rest)))) := by
              show ('[' :: (dumpJson x ++ (dumpItems xs ++ [']']))) ++ rest = _
              rw [hd]
              simp
            rw [hin, pj_arr_go f c0 _ hc1]
            have hback : c0 :: (tl ++ (dumpItems xs ++ (']' :: rest))) =
                dumpJson x ++ (dumpItems xs ++ (']' :: rest)) := by
              rw [hd]
              simp
            rw [hback,
              (ih (n - 1) hlt).2.1 x xs hcall f (']' :: rest) hn (by simp [headNotComma])]
            rfl
        | obj l =>
          rcases l with _ | ⟨⟨k, v⟩, xs⟩
          · exact pj_obj_empty f rest
          · have hn : needFields ((k, v) :: xs) ≤ f := by
              have h1 : needJson (.obj ((k, v) :: xs)) = 1 + needFields ((k, v) :: xs) := rfl
              omega
            have hsz1 : 3 + sizeOf v + sizeOf xs ≤ sizeOf (Json.obj ((k, v) :: xs)) := by
              simp
              omega
            have hlt : n - 1 < n := by omega
            have hcall : 1 + sizeOf v + sizeOf xs ≤ n - 1 := by omega
            have hin : dumpJson (.obj ((k, v) :: xs)) ++ rest =
                Char.ofNat 123 :: ('"' :: ((escapeList k.data ++ ['"', ':']) ++
                  (dumpJson v ++ (dumpFields xs ++ (Char.ofNat 125 :: rest))))) := by
              show (Char.ofNat 123 ::
                (('"' :: (escapeList k.data ++ ['"', ':'])) ++
                  (dumpJson v ++ (dumpFields xs ++ [Char.ofNat 125])))) ++ rest = _
              simp
            rw [hin, pj_obj_go f '"' _ (by decide)]
            have hback : '"' :: ((escapeList k.data ++ ['"', ':']) ++
                (dumpJson v ++ (dumpFields xs ++ (Char.ofNat 125 :: rest)))) =
                ('"' :: (escapeList k.data ++ ['"', ':'])) ++
                  (dumpJson v ++ (dumpFields xs ++ (Char.ofNat 125 :: rest))) := by
              simp
            rw [hback,
              (ih (n - 1) hlt).2.2 k v xs hcall f (Char.ofNat 125 :: rest) hn
                (by simp [headNotComma])]
            simp only [Char.reduceEq, reduceIte]
    · -- parseItems round trip
      intro x xs hsz f t hf ht
      cases f with
      | zero =>
        have h1 := needItems_pos (x :: xs)
        omega
      | succ f =>
        have hx : needJson x ≤ f := by
          have h1 : needItems (x :: xs) = 1 + max (needJson x) (needItems xs) := rfl
          have h2 := Nat.le_max_left (needJson x) (needItems xs)
          omega
        have hxpos := json_sizeOf_pos x
        have hlt : n - 1 < n := by omega
        have hszx : sizeOf x ≤ n - 1 := by omega
        rw [pi_succ, (ih (n - 1) hlt).1 x hszx f (dumpItems xs ++ t) hx]
        cases xs with
        | nil =>
          show (match ([] : List Char) ++ t with
                | [] => some ([x], [])
                | c :: rest' =>
                  if c = ',' then
                    match parseItems f rest' with
                    | some (xs, rest'') => some (x :: xs, rest'')
                    | none => none
                  else some ([x], c :: rest')) = some ([x], t)
          cases t with
          | nil => rfl
          | cons c r' =>
            have hc : ¬ c = ',' := ht
            simp [if_neg hc]
        | cons y ys =>
          have hy : needItems (y :: ys) ≤ f := by
            have h1 : needItems (x :: y :: ys) = 1 + max (needJson x) (needItems (y :: ys)) := rfl
            have h2 := Nat.le_max_right (needJson x) (needItems (y :: ys))
            omega
          have hszy : 1 + sizeOf y + sizeOf ys ≤ n - 1 := by
            have h3 : sizeOf (y :: ys) = 1 + sizeOf y + sizeOf ys := by
              simp
            omega
          have he : dumpItems (y :: ys) ++ t = ',' :: (dumpJson y ++ (dumpItems ys ++ t)) := by
            show (',' :: (dumpJson y ++ dumpItems ys)) ++ t = _
            simp
          rw [he]
          show (if ',' = ',' then
                  match parseItems f (dumpJson y ++ (dumpItems ys ++ t)) with
                  | some (xs, rest'') => some (x :: xs, rest'')
                  | none => none
                else some ([x], ',' :: (dumpJson y ++ (dumpItems ys ++ t)))) = _
          rw [if_pos rfl, (ih (n - 1) hlt).2.1 y ys hszy f t hy ht]
    · -- parseFields round trip
      intro k v xs hsz f t hf ht
      cases f with
      | zero =>
        have h1 := needFields_pos ((k, v) :: xs)
        omega
      | succ f =>
        have hv : needJson v ≤ f := by
          have h1 : needFields ((k, v) :: xs) = 1 + max (needJson v) (needFields xs) := rfl
          have h2 := Nat.le_max_left (needJson v) (needFields xs)
          omega
        have hvpos := json_sizeOf_pos v
        have hlt : n - 1 < n := by omega
        have hszv : sizeOf v ≤ n - 1 := by omega
        have hin : ('"' :: (escapeList k.data ++ ['"', ':'])) ++
            (dumpJson v ++ (dumpFields xs ++ t)) =
            '"' :: (escapeList k.data ++
              ('"' :: ':' :: (dumpJson v ++ (dumpFields xs ++ t)))) := by
          simp
        rw [pf_succ, hin]
        simp only [Char.reduceEq, reduceIte]
        rw [parseStringBody_escape]
        show (match (':' :: (dumpJson v ++ (dumpFields xs ++ t))) with
              | [] => none
              | c2 :: r3 =>
                if c2 = ':' then
                  match parseJson f r3 with
                  | none => none
                  | some (v, rest) =>
                    match rest with
                    | [] => some ([(String.mk k.data, v)], [])
                    | c3 :: rest' =>
                      if c3 = ',' then
                        match parseFields f rest' with
                        | some (fs, rest'') => some ((String.mk k.data, v) :: fs, rest'')
                        | none => none
                      else some ([(String.mk k.data, v)], c3 :: rest')
                else none) = some ((k, v) :: xs, t)
        rw [show (String.mk k.data) = k from rfl]
        simp only [Char.reduceEq, reduceIte]
        rw [(ih (n - 1) hlt).1 v hszv f (dumpFields xs ++ t) hv]
        rcases xs with _ | ⟨⟨k2, v2⟩, ys⟩
        · show (match ([] : List Char) ++ t with
                | [] => some ([(k, v)], [])
                | c3 :: rest' =>
                  if c3 = ',' then
                    match parseFields f rest' with
                    | some (fs, rest'') => some ((k, v) :: fs, rest'')
                    | none => none
                  else some ([(k, v)], c3 :: rest')) = some ([(k, v)], t)
          cases t with
          | nil => rfl
          | cons c r' =>
            have hc : ¬ c = ',' := ht
            simp [if_neg hc]
        · have hy : needFields ((k2, v2) :: ys) ≤ f := by
            have h1 : needFields ((k, v) :: (k2, v2) :: ys) =
                1 + max (needJson v) (needFields ((k2, v2) :: ys)) := rfl
            have h2 := Nat.le_max_right (needJson v) (needFields ((k2, v2) :: ys))
            omega
          have hszy : 1 + sizeOf v2 + sizeOf ys ≤ n - 1 := by
            have h3 : sizeOf ((k2, v2) :: ys) = 2 + sizeOf k2 + sizeOf v2 + sizeOf ys := by
              simp
              omega
            omega
          have he : dumpFields ((k2, v2) :: ys) ++ t =
              ',' :: (('"' :: (escapeList k2.data ++ ['"', ':'])) ++
                (dumpJson v2 ++ (dumpFields ys ++ t))) := by
            show (',' :: (('"' :: (escapeList k2.data ++ ['"', ':'])) ++
              (dumpJson v2 ++ dumpFields ys))) ++ t = _
            simp
          rw [he]
          show (if ',' = ',' then
                  match parseFields f (('"' :: (escapeList k2.data ++ ['"', ':'])) ++
                    (dumpJson v2 ++ (dumpFields ys ++ t))) with
                  | some (fs, rest'') => some ((k, v) :: fs, rest'')
                  | none => none
                else _) = _
          rw [if_pos rfl, (ih (n - 1) hlt).2.2 k2 v2 ys hszy f t hy ht]

theorem rt_json (j : Json) (f : Nat) (rest : List Char) (hf : needJson j ≤ f) :
    parseJson f (dumpJson j ++ rest) = some (j, rest) :=
  (rt_main (sizeOf j)).1 j le_rfl f rest hf

theorem dump_len_pos (j : Json) : 1 ≤ (dumpJson j).length := by
  cases j with
  | null => simp [dumpJson]
  | bool b => cases b <;> simp [dumpJson]
  | str s => simp [dumpJson]
  | arr l => cases l <;> simp [dumpJson]
  | obj l =>
    cases l with
    | nil => simp [dumpJson]
    | cons kv xs => obtain ⟨k, v⟩ := kv; simp [dumpJson]

mutual
theorem dump_len (j : Json) : needJson j ≤ (dumpJson j).length := by
  cases j with
  | null => simp [needJson, dumpJson]
  | bool b => cases b <;> simp [needJson, dumpJson]
  | str s => simp [needJson, dumpJson]
  | arr l =>
    cases l with
    | nil => simp [needJson, dumpJson, needItems]
    | cons x xs =>
      have h1 := dump_len x
      have h2 := dump_items_len xs
      have h3 := dump_len_pos x
      simp [needJson, dumpJson, needItems]
      omega
  | obj l =>
    cases l with
    | nil => simp [needJson, dumpJson, needFields]
    | cons kv xs =>
      obtain ⟨k, v⟩ := kv
      have h1 := dump_len v
      have h2 := dump_fields_len xs
      have h3 := dump_len_pos v
      simp [needJson, dumpJson, needFields]
      omega

theorem dump_items_len (l : List Json) : needItems l ≤ (dumpItems l).length + 1 := by
  cases l with
  | nil => simp [needItems, dumpItems]
  | cons x xs =>
    have h1 := dump_len x
    have h2 := dump_items_len xs
    have h3 := dump_len_pos x
    simp [needItems, dumpItems]
    omega

theorem dump_fields_len (l : List (String × Json)) : needFields l ≤ (dumpFields l).length + 1 := by
  cases l with
  | nil => simp [needFields, dumpFields]
  | cons kv xs =>
    obtain ⟨k, v⟩ := kv
    have h1 := dump_len v
    have h2 := dump_fields_len xs
    have h3 := dump_len_pos v
    simp [needFields, dumpFields]
    omega
end

def json_dumps (j : Json) : String := String.mk (dumpJson j)

def json_loads (s : String) : Option Json :=
  match parseJson (s.data.length + 1) s.data with
  | some (j, []) => some j
  | _ => none

theorem json_roundtrip (j : Json) : json_loads (json_dumps j) = some j := by
  unfold json_loads json_dumps
  have h2 : needJson j ≤ (dumpJson j).length + 1 := le_trans (dump_len j) (Nat.le_succ _)
  have h3 := rt_json j ((dumpJson j).length + 1) [] h2
  rw [List.append_nil] at h3
  rw [show (String.mk (dumpJson j)).data = dumpJson j from rfl, h3]

/-! ## Data model (app.py lines 41-110) -/

/-- Post status values, app.py line 83: draft, pending, approved, queued, posted. -/
inductive Status where
  | draft
  | pending
  | approved
  | queued
  | posted
deriving Repr, DecidableEq

/-- Position of a status in the progression draft, pending, approved, queued, posted. -/
def Status.rank : Status → Nat
  | .draft => 0
  | .pending => 1
  | .approved => 2
  | .queued => 3
  | .posted => 4

/-- Approval status values, app.py line 103: pending, approved, rejected. -/
inductive ApprovalStatus where
  | pending
  | approved
  | rejected
deriving Repr, DecidableEq

/-- A calendar date, the value of a db.Date column. -/
structure Date where
  year : Nat
  month : Nat
  day : Nat
deriving Repr, DecidableEq

/-- User row, app.py lines 54-58.  The password hash is never read by the
logic embedded here and is omitted. -/
structure User where
  id : Nat
  username : String
  isAdmin : Bool
deriving Repr, DecidableEq

/-- Client row, app.py lines 60-68, together with its client_approvers
association rows (lines 70-73), kept as the list of approver user ids. -/
structure Client where
  id : Nat
  userId : Nat
  name : String
  deadlineDays : Nat
  activeWorkflowId : Option Nat
  approvers : List Nat
deriving Repr, DecidableEq

/-- Post row, app.py lines 75-85.  The id is the uuid string primary key. -/
structure Post where
  id : String
  clientId : Nat
  content : String
  caption : Option String
  filePath : Option String
  createdAt : Date
  scheduleDate : Option Date
  status : Status
deriving Repr, DecidableEq

/-- PostRevision row, app.py lines 41-52.  The integer primary key and the
revised_at timestamp are not read by any embedded logic and are omitted. -/
structure PostRevision where
  postId : String
  content : String
  caption : Option String
  filePath : Option String
  scheduleDate : Option Date
  revisedById : Nat
deriving Repr, DecidableEq

/-- Approval row, app.py lines 99-104.  The integer primary key is not read
by any embedded logic and is omitted; row identity is positional. -/
structure Approval where
  postId : String
  userId : Nat
  status : ApprovalStatus
deriving Repr, DecidableEq

/-- Workflow row, app.py lines 106-110.  components holds a JSON string. -/
structure Workflow where
  id : Nat
  clientId : Nat
  name : String
  components : String
deriving Repr, DecidableEq

/-- The relational store.  nextWorkflowId models the autoincrement primary
key counter of the workflow table. -/
structure AppState where
  users : List User
  clients : List Client
  posts : List Post
  approvals : List Approval
  revisions : List PostRevision
  workflows : List Workflow
  nextWorkflowId : Nat
deriving Repr, DecidableEq

/-- Python exceptions that the embedded request handlers can raise. -/
inductive PyErr where
  | attrNone
  | attrTimedelta
  | attrDateToday
  | typeErr
  | keyErr
  | valueErr
  | nameErr
  | jsonDecode
  | missingRow
deriving Repr, DecidableEq

/-! ## Python value helpers -/

/-- Python truthiness of a decoded JSON value. -/
def truthy : Json → Bool
  | .null => false
  | .bool b => b
  | .str s => !(s == "")
  | .arr l => !l.isEmpty
  | .obj l => !l.isEmpty

/-- Equality test of a decoded JSON value against a Python string literal:
true only for an equal string value. -/
def jsonEqStr : Json → String → Bool
  | .str t, s => t == s
  | _, _ => false

/-- Python dict lookup.  A dict built by json.loads keeps the last of any
duplicate keys, so the last binding wins. -/
def dictGet : List (String × Json) → String → Option Json
  | [], _ => none
  | (k0, v) :: rest, k =>
    match dictGet rest k with
    | some v2 => some v2
    | none => if k0 == k then some v else none

/-- Python iteration over a decoded JSON value: lists yield elements, dicts
yield keys, strings yield one-character strings, anything else raises
TypeError. -/
def pyIter : Json → Except PyErr (List Json)
  | .arr l => .ok l
  | .obj l => .ok (l.map (fun kv => Json.str kv.1))
  | .str s => .ok (s.data.map (fun c => Json.str (String.mk [c])))
  | _ => .error .typeErr

/-! ## Query helpers -/

def findUser (st : AppState) (uid : Nat) : Option User :=
  st.users.find? (fun u => u.id == uid)

def findUserByName (st : AppState) (username : Json) : Option User :=
  st.users.find? (fun u => jsonEqStr username u.username)

def findClient (st : AppState) (cid : Nat) : Option Client :=
  st.clients.find? (fun c => c.id == cid)

def findPost (st : AppState) (pid : String) : Option Post :=
  st.posts.find? (fun p => p.id == pid)

def findWorkflow (st : AppState) (wid : Nat) : Option Workflow :=
  st.workflows.find? (fun w => w.id == wid)

def findApproval (st : AppState) (pid : String) (uid : Nat) : Option Approval :=
  st.approvals.find? (fun a => a.postId == pid && a.userId == uid)

def approvalsFor (st : AppState) (pid : String) : List Approval :=
  st.approvals.filter (fun a => a.postId == pid)

def updatePost (st : AppState) (pid : String) (f : Post → Post) : AppState :=
  { st with posts := st.posts.map (fun p => if p.id == pid then f p else p) }

def updateClient (st : AppState) (cid : Nat) (f : Client → Client) : AppState :=
  { st with clients := st.clients.map (fun c => if c.id == cid then f c else c) }

/-- Mutate the first Approval row matching the filter, as
Approval.query.filter_by(...).first() does on line 280. -/
def setFirstApproval : List Approval → String → Nat → ApprovalStatus → List Approval
  | [], _, _, _ => []
  | a :: rest, pid, uid, s =>
    if a.postId == pid && a.userId == uid then { a with status := s } :: rest
    else a :: setFirstApproval rest pid uid s

def isDigitChar (c : Char) : Bool := 48 ≤ c.toNat && c.toNat ≤ 57

def digitsToNat (l : List Char) : Nat :=
  l.foldl (fun acc c => acc * 10 + (c.toNat - 48)) 0

/-- Whitespace stripped by Python int() around a numeric string. -/
def pySpaceChar (c : Char) : Bool :=
  c == ' ' || c == Char.ofNat 9 || c == Char.ofNat 10 || c == Char.ofNat 13 ||
    c == Char.ofNat 11 || c == Char.ofNat 12

/-- Python int(s) on a string: optional surrounding whitespace, optional
sign, at least one digit; anything else raises ValueError. -/
def pyIntOfString (s : String) : Option Int :=
  match ((s.data.dropWhile pySpaceChar).reverse.dropWhile pySpaceChar).reverse with
  | '-' :: core =>
    if core.length ≥ 1 && core.all isDigitChar then some (-(digitsToNat core : Int))
    else none
  | '+' :: core =>
    if core.length ≥ 1 && core.all isDigitChar then some ((digitsToNat core : Int))
    else none
  | core =>
    if core.length ≥ 1 && core.all isDigitChar then some ((digitsToNat core : Int))
    else none

def isLeapYear (y : Nat) : Bool := y % 4 == 0 && (y % 100 != 0 || y % 400 == 0)

def daysInMonth (y m : Nat) : Nat :=
  if m == 2 then (if isLeapYear y then 29 else 28)
  else if m == 4 || m == 6 || m == 9 || m == 11 then 30
  else 31

/-- Split a character list at every occurrence of a separator. -/
def splitOnChar (sep : Char) : List Char → List (List Char)
  | [] => [[]]
  | c :: rest =>
    if c == sep then [] :: splitOnChar sep rest
    else
      match splitOnChar sep rest with
      | h :: t => (c :: h) :: t
      | [] => [[c]]

/-- datetime.strptime(s, the year-month-day format).date(): one to four year
digits, one or two month and day digits, dash separated, with calendar range
checks; anything else raises ValueError. -/
def parseDateYMD (s : String) : Option Date :=
  match splitOnChar '-' s.data with
  | [ys, ms, ds] =>
    if ys.length ≥ 1 && ys.length ≤ 4 && ys.all isDigitChar &&
       ms.length ≥ 1 && ms.length ≤ 2 && ms.all isDigitChar &&
       ds.length ≥ 1 && ds.length ≤ 2 && ds.all isDigitChar then
      let y := digitsToNat ys
      let m := digitsToNat ms
      let d := digitsToNat ds
      if 1 ≤ y && 1 ≤ m && m ≤ 12 && 1 ≤ d && d ≤ daysInMonth y m then some ⟨y, m, d⟩
      else none
    else none
  | _ => none

/-- ASCII lowercasing, enough for the extension allow-list: a non-ASCII
extension lowers to itself and never matches the list, as in the source. -/
def asciiLower (c : Char) : Char :=
  if 65 ≤ c.toNat && c.toNat ≤ 90 then Char.ofNat (c.toNat + 32) else c

/-- allowed_file, app.py lines 37-38: a dot is present and the lowercased
extension after the last dot is png, jpg, jpeg, gif or mp4. -/
def allowed_file (filename : String) : Bool :=
  let parts := splitOnChar '.' filename.data
  decide (parts.length ≥ 2) &&
    [['p','n','g'], ['j','p','g'], ['j','p','e','g'], ['g','i','f'],
     ['m','p','4']].contains ((parts.getLastD []).map asciiLower)

/-! ## Workflow engine (apply_workflow, app.py lines 122-151) -/

/-- One username of the Assign Approvers loop, app.py lines 134-142.  The
user lookup on line 135 can yield None; line 136 guards the approver append
with `if user`, but the Approval lookup on line 138 reads user.id without
that guard, so an unresolved username raises AttributeError.  Accessing
post.client.approvers raises AttributeError when the client row is gone. -/
def addApprovalIfAbsent (st : AppState) (pid : String) (uid : Nat) : AppState :=
  match findApproval st pid uid with
  | some _ => st
  | none => { st with approvals := st.approvals ++ [⟨pid, uid, .pending⟩] }

def assignOne (cid : Nat) (pid : String) (st : AppState) (username : Json) :
    Except PyErr AppState :=
  match findUserByName st username with
  | none => .error .attrNone
  | some u =>
    match findClient st cid with
    | none => .error .attrNone
    | some c =>
      .ok (addApprovalIfAbsent
            (if c.approvers.contains u.id then st
             else updateClient st cid
               (fun c0 => { c0 with approvers := c0.approvers ++ [u.id] }))
            pid u.id)

/-- The generator next((opt value for opt in options if opt name matches),
default) of app.py lines 132 and 144: scan the option list in order, return
the value field of the first option whose name field equals optName.  A
non-dict option raises TypeError, a missing name or value key KeyError. -/
def findOptValue : List Json → String → Except PyErr (Option Json)
  | [], _ => .ok none
  | o :: rest, optName =>
    match o with
    | .obj f =>
      match dictGet f "name" with
      | none => .error .keyErr
      | some n =>
        if jsonEqStr n optName then
          match dictGet f "value" with
          | none => .error .keyErr
          | some v => .ok (some v)
        else findOptValue rest optName
    | _ => .error .typeErr

/-- Set Deadline, app.py lines 143-146.  Line 145 runs int(days) when the
days value is truthy (ValueError on a non-numeric string, TypeError on a
list or dict).  Line 146 then evaluates datetime.timedelta, which raises
AttributeError because line 6 rebound the name datetime to the class, so
this action always raises and the schedule date is never written. -/
def setDeadlineErr (daysValue : Option Json) : PyErr :=
  match daysValue with
  | none => .attrTimedelta
  | some v =>
    if truthy v then
      match v with
      | .str s => (match pyIntOfString s with | none => .valueErr | some _ => .attrTimedelta)
      | .bool _ => .attrTimedelta
      | .arr _ => .typeErr
      | .obj _ => .typeErr
      | .null => .attrTimedelta
    else .attrTimedelta

/-- One component of the loop of app.py lines 129-150.  Only dict components
with type action are interpreted; the recognized names are matched exactly
and any other name is a no-op.  Reading a key of a non-dict component raises
TypeError, a missing type, name or options key raises KeyError. -/
def applyComp (cid : Nat) (pid : String) (st : AppState) (comp : Json) :
    Except PyErr AppState :=
  match comp with
  | .obj fields =>
    match dictGet fields "type" with
    | none => .error .keyErr
    | some t =>
      if jsonEqStr t "action" then
        match dictGet fields "name" with
        | none => .error .keyErr
        | some nm =>
          if jsonEqStr nm "Assign Approvers" then
            match dictGet fields "options" with
            | none => .error .keyErr
            | some opts =>
              if truthy opts then
                match pyIter opts with
                | .error e => .error e
                | .ok optList =>
                  match findOptValue optList "approvers" with
                  | .error e => .error e
                  | .ok vOpt =>
                    match pyIter (vOpt.getD (Json.arr [])) with
                    | .error e => .error e
                    | .ok usernames => usernames.foldlM (assignOne cid pid) st
              else .ok st
          else if jsonEqStr nm "Set Deadline" then
            match dictGet fields "options" with
            | none => .error .keyErr
            | some opts =>
              if truthy opts then
                match pyIter opts with
                | .error e => .error e
                | .ok optList =>
                  match findOptValue optList "days" with
                  | .error e => .error e
                  | .ok vOpt => .error (setDeadlineErr vOpt)
              else .ok st
          else if jsonEqStr nm "Queue Post" then
            .ok (updatePost st pid (fun p => { p with status := .queued }))
          else if jsonEqStr nm "Post Now" then
            .ok (updatePost st pid (fun p => { p with status := .posted }))
          else .ok st
      else .ok st
  | _ => .error .typeErr

/-- apply_workflow, app.py lines 122-151.  A missing workflow is a no-op.
The components string is decoded with json.loads and the components are
processed strictly in order; the single commit sits at line 151, so an
exception loses every mutation of the invocation.  The post argument of the
source is passed here by id; missingRow is a model-internal marker for a
dangling id, which no route can produce. -/
def apply_workflow (st : AppState) (pid : String) (wf : Option Workflow) :
    Except PyErr AppState :=
  match wf with
  | none => .ok st
  | some w =>
    match json_loads w.components with
    | none => .error .jsonDecode
    | some comps =>
      match findPost st pid with
      | none => .error .missingRow
      | some post =>
        match pyIter comps with
        | .error e => .error e
        | .ok compList => compList.foldlM (applyComp post.clientId pid) st

/-! ## Route handlers -/

/-- Result of the POST branch of client_posts (post creation). -/
inductive CPRes where
  | notFound
  | unauthorized
  | invalidFile
  | created
  | crashed (e : PyErr)
deriving Repr, DecidableEq

/-- client_posts POST, app.py lines 230-267.  The uuid primary key of the
new post and the shared class-load created_at timestamp are inputs.  A
schedule_date string that strptime rejects raises ValueError (line 241,
uncaught).  A file part that is falsy or has a disallowed extension flashes
and aborts before the post is created (lines 245-254).  When the client has
an active workflow it is applied (line 259; an exception there aborts the
request before any commit), otherwise one pending Approval per client
approver is created (lines 262-264). -/
def client_posts (st : AppState) (sessionUserId clientId : Nat) (pid content : String)
    (caption : Option String) (scheduleDateStr : Option String) (file : Option String)
    (createdAt : Date) : CPRes × AppState :=
  match findClient st clientId with
  | none => (.notFound, st)
  | some c =>
    if !(c.userId == sessionUserId) then (.unauthorized, st)
    else
      match (match scheduleDateStr with
             | none => Except.ok (none : Option Date)
             | some s =>
               if s == "" then .ok none
               else match parseDateYMD s with
                    | none => .error PyErr.valueErr
                    | some d => .ok (some d)) with
      | .error e => (.crashed e, st)
      | .ok sched =>
        match (match file with
               | none => Except.ok (none : Option String)
               | some fname =>
                 if !(fname == "") && allowed_file fname then .ok (some ("uploads/" ++ fname))
                 else .error ()) with
        | .error _ => (.invalidFile, st)
        | .ok fpath =>
          let post : Post :=
            ⟨pid, clientId, content, caption, fpath, createdAt, sched, .pending⟩
          let stP := { st with posts := st.posts ++ [post] }
          match c.activeWorkflowId.bind (findWorkflow st) with
          | some w =>
            match apply_workflow stP pid (some w) with
            | .error e => (.crashed e, st)
            | .ok st2 => (.created, st2)
          | none =>
            (.created,
              { stP with approvals :=
                  stP.approvals ++ c.approvers.map (fun aid => ⟨pid, aid, .pending⟩) })

/-- Result of the POST branch of post_detail (recording an approval). -/
inductive RARes where
  | notFound
  | notAnApprover
  | updated
  | crashed (e : PyErr)
deriving Repr, DecidableEq

/-- The generator any(comp name equals Post Approved) of app.py line 295,
scanning in order and short-circuiting at the first hit. -/
def scanPostApproved : List Json → Except PyErr Bool
  | [] => .ok false
  | c :: rest =>
    match c with
    | .obj f =>
      match dictGet f "name" with
      | none => .error .keyErr
      | some n => if jsonEqStr n "Post Approved" then .ok true else scanPostApproved rest
    | _ => .error .typeErr

/-- Recomputation step of post_detail after the Approval update has been
committed (app.py lines 289-297): when every Approval row of the post is
approved, the post status is set to approved; with an active workflow that
declares a Post Approved component, apply_workflow is re-invoked, and an
exception there rolls back to the committed stA. -/
def post_detail_recompute (stA : AppState) (clientId : Nat) (pid : String) :
    RARes × AppState :=
  if (approvalsFor stA pid).all (fun a => a.status == .approved) then
    match findClient stA clientId with
    | none => (.crashed .attrNone, stA)
    | some c =>
      match c.activeWorkflowId.bind (findWorkflow stA) with
      | none => (.updated, updatePost stA pid (fun p => { p with status := .approved }))
      | some w =>
        match json_loads w.components with
        | none => (.crashed .jsonDecode, stA)
        | some comps =>
          match pyIter comps with
          | .error e => (.crashed e, stA)
          | .ok compList =>
            match scanPostApproved compList with
            | .error e => (.crashed e, stA)
            | .ok false =>
              (.updated, updatePost stA pid (fun p => { p with status := .approved }))
            | .ok true =>
              match apply_workflow
                  (updatePost stA pid (fun p => { p with status := .approved }))
                  pid (some w) with
              | .error e => (.crashed e, stA)
              | .ok stC => (.updated, stC)
  else (.updated, stA)

/-- post_detail POST, app.py lines 271-299.  The action string sets the
matching Approval row to approved or rejected (any other action leaves it
unchanged but still commits and recomputes).  A missing Approval row for the
session user flashes not-an-approver.  After the commit of line 288 the
recomputation of lines 290-297 runs: when every Approval row of the post is
approved the post status is set to approved (uncommitted until line 297 or
the commit inside apply_workflow), the active workflow is fetched, and when
it declares a Post Approved component apply_workflow is re-invoked.  An
exception after line 288 rolls the session back to that commit, so only the
Approval update survives. -/
def post_detail (st : AppState) (sessionUserId : Nat) (pid action : String) :
    RARes × AppState :=
  match findPost st pid with
  | none => (.notFound, st)
  | some post =>
    match findUser st sessionUserId with
    | none => (.crashed .attrNone, st)
    | some user =>
      match findApproval st pid user.id with
      | none => (.notAnApprover, st)
      | some _ =>
        post_detail_recompute
          (if action == "approve" then
            { st with approvals := setFirstApproval st.approvals pid user.id .approved }
           else if action == "reject" then
            { st with approvals := setFirstApproval st.approvals pid user.id .rejected }
           else st)
          post.clientId pid

/-- Result of the POST branch of the queue route. -/
inductive QRes where
  | notFound
  | notApproved
  | queuedOk
  | notQueued
  | postedOk
  | ignored
  | crashed (e : PyErr)
deriving Repr, DecidableEq

/-- queue POST, app.py lines 348-372.  The queue action requires status
approved; with a schedule_date set, line 359 evaluates
datetime.date.today(), which raises AttributeError because the name
datetime was rebound to the class on line 6, so the deadline comparison is
unreachable.  With no schedule_date the short-circuit skips the call and
the post is queued.  The post_now action requires status queued and sets
posted.  Any other action string only redirects. -/
def queue (st : AppState) (pid action : String) : QRes × AppState :=
  match findPost st pid with
  | none => (.notFound, st)
  | some post =>
    if action == "queue" then
      if !(post.status == .approved) then (.notApproved, st)
      else
        match post.scheduleDate with
        | some _ => (.crashed .attrDateToday, st)
        | none => (.queuedOk, updatePost st pid (fun p => { p with status := .queued }))
    else if action == "post_now" then
      if !(post.status == .queued) then (.notQueued, st)
      else (.postedOk, updatePost st pid (fun p => { p with status := .posted }))
    else (.ignored, st)

/-- PostRevision snapshot of the current field values of a post,
Post.create_revision, app.py lines 87-97.  The method commits. -/
def Post.create_revision (p : Post) (editorId : Nat) : PostRevision :=
  ⟨p.id, p.content, p.caption, p.filePath, p.scheduleDate, editorId⟩

/-- Result of edit_post. -/
inductive EPRes where
  | notFound
  | unauthorized
  | invalidDate
  | edited
  | crashed (e : PyErr)
deriving Repr, DecidableEq

/-- edit_post, app.py lines 311-346.  After the ownership check the
revision snapshot is written and committed (line 320, via create_revision).
The new content and caption fall back to the current values when the form
omits them.  A nonempty schedule_date string that strptime rejects flashes
invalid-date and returns (lines 326-331); the post mutations made before
that point were never committed and are rolled back at request teardown, so
only the revision survives.  An empty or absent schedule_date clears the
field (line 333).  A file part is applied only when allowed_file accepts it
(lines 336-342); a rejected file is silently ignored here. -/
def edit_post (st : AppState) (sessionUserId : Nat) (pid : String)
    (content caption scheduleDateStr file : Option String) : EPRes × AppState :=
  match findPost st pid with
  | none => (.notFound, st)
  | some post =>
    match findClient st post.clientId with
    | none => (.unauthorized, st)
    | some c =>
      if !(c.userId == sessionUserId) then (.unauthorized, st)
      else
        match findUser st sessionUserId with
        | none => (.crashed .attrNone, st)
        | some editor =>
          let stR := { st with revisions := st.revisions ++ [post.create_revision editor.id] }
          let content2 := content.getD post.content
          let caption2 := match caption with
                          | some cc => some cc
                          | none => post.caption
          let fpath := match file with
                       | some f =>
                         if !(f == "") && allowed_file f then some ("uploads/" ++ f)
                         else post.filePath
                       | none => post.filePath
          let finish : Option Date → EPRes × AppState := fun sched =>
            (.edited, updatePost stR pid (fun p =>
              { p with content := content2, caption := caption2,
                       scheduleDate := sched, filePath := fpath }))
          match scheduleDateStr with
          | some s =>
            if !(s == "") then
              match parseDateYMD s with
              | none => (.invalidDate, stR)
              | some d => finish (some d)
            else finish none
          | none => finish none

/-- Result of save_workflow. -/
inductive SWRes where
  | notFound
  | unauthorized
  | saved (workflowId : Nat)
deriving Repr, DecidableEq

/-- save_workflow, app.py lines 388-398: ownership check, then a new
Workflow row whose components column stores json.dumps of the submitted
components value; the fresh primary key is returned. -/
def save_workflow (st : AppState) (sessionUserId clientId : Nat) (name : String)
    (components : Json) : SWRes × AppState :=
  match findClient st clientId with
  | none => (.notFound, st)
  | some c =>
    if !(c.userId == sessionUserId) then (.unauthorized, st)
    else
      let wid := st.nextWorkflowId
      (.saved wid,
        { st with
          workflows := st.workflows ++ [⟨wid, clientId, name, json_dumps components⟩],
          nextWorkflowId := wid + 1 })

/-- Result of set_active_workflow. -/
inductive SAWRes where
  | notFound
  | unauthorized
  | wrongClient
  | okSet
deriving Repr, DecidableEq

/-- set_active_workflow, app.py lines 400-414: ownership check; workflow id
zero clears active_workflow_id; otherwise the workflow is fetched (404 when
absent) and rejected with a 403 when it belongs to another client, before
any mutation. -/
def set_active_workflow (st : AppState) (sessionUserId clientId workflowId : Nat) :
    SAWRes × AppState :=
  match findClient st clientId with
  | none => (.notFound, st)
  | some c =>
    if !(c.userId == sessionUserId) then (.unauthorized, st)
    else if workflowId == 0 then
      (.okSet, updateClient st clientId (fun c0 => { c0 with activeWorkflowId := none }))
    else
      match findWorkflow st workflowId with
      | none => (.notFound, st)
      | some w =>
        if !(w.clientId == clientId) then (.wrongClient, st)
        else
          (.okSet, updateClient st clientId
            (fun c0 => { c0 with activeWorkflowId := some workflowId }))

/-- Result of load_workflow. -/
inductive LWRes where
  | notFound
  | crashed (e : PyErr)
  | loaded (name : String) (components : Json)

/-- load_workflow, app.py lines 416-423: fetch the workflow (404 when
absent), fetch its client with Client.query.get (AttributeError on None
when the client row is gone), and on an ownership mismatch call abort,
which is not imported and raises NameError.  On success the name and the
json.loads decoding of the components column are returned; the state is
not changed. -/
def load_workflow (st : AppState) (sessionUserId workflowId : Nat) : LWRes :=
  match findWorkflow st workflowId with
  | none => .notFound
  | some w =>
    match findClient st w.clientId with
    | none => .crashed .attrNone
    | some c =>
      if !(c.userId == sessionUserId) then .crashed .nameErr
      else
        match json_loads w.components with
        | none => .crashed .jsonDecode
        | some comps => .loaded w.name comps

/-! ## Query lemmas -/

theorem find?_posts_map (l : List Post) (pid : String) (f : Post → Post)
    (hid : ∀ p, (f p).id = p.id) :
    (l.map (fun p => if p.id == pid then f p else p)).find? (fun p => p.id == pid) =
      (l.find? (fun p => p.id == pid)).map f := by
  induction l with
  | nil => rfl
  | cons p rest ih =>
    by_cases h : (p.id == pid) = true
    · have h1 : ((f p).id == pid) = true := by rw [hid]; exact h
      rw [List.map_cons, if_pos h, List.find?_cons, List.find?_cons, h1, h]
      rfl
    · have h2 : (p.id == pid) = false := by simpa using h
      rw [List.map_cons, if_neg h, List.find?_cons, List.find?_cons, h2]
      exact ih

theorem find?_posts_map_ne (l : List Post) (pid pid2 : String) (f : Post → Post)
    (hid : ∀ p, (f p).id = p.id) (hne : pid2 ≠ pid) :
    (l.map (fun p => if p.id == pid then f p else p)).find? (fun p => p.id == pid2) =
      l.find? (fun p => p.id == pid2) := by
  induction l with
  | nil => rfl
  | cons p rest ih =>
    by_cases h : (p.id == pid) = true
    · have hpp : p.id = pid := by simpa using h
      have h2 : ((f p).id == pid2) = false := by
        rw [hid, hpp]
        simpa using fun hcon => hne hcon.symm
      have h3 : (p.id == pid2) = false := by
        rw [hpp]
        simpa using fun hcon => hne hcon.symm
      rw [List.map_cons, if_pos h, List.find?_cons, List.find?_cons, h2, h3]
      exact ih
    · rw [List.map_cons, if_neg h, List.find?_cons, List.find?_cons]
      by_cases h4 : (p.id == pid2) = true
      · rw [h4]
      · have h5 : (p.id == pid2) = false := by simpa using h4
        rw [h5]
        exact ih

theorem findPost_updatePost (st : AppState) (pid : String) (f : Post → Post)
    (hid : ∀ p, (f p).id = p.id) :
    findPost (updatePost st pid f) pid = (findPost st pid).map f :=
  find?_posts_map st.posts pid f hid

theorem findPost_updatePost_ne (st : AppState) (pid pid2 : String) (f : Post → Post)
    (hid : ∀ p, (f p).id = p.id) (hne : pid2 ≠ pid) :
    findPost (updatePost st pid f) pid2 = findPost st pid2 :=
  find?_posts_map_ne st.posts pid pid2 f hid hne

theorem find?_clients_map (l : List Client) (cid : Nat) (f : Client → Client)
    (hid : ∀ c, (f c).id = c.id) :
    (l.map (fun c => if c.id == cid then f c else c)).find? (fun c => c.id == cid) =
      (l.find? (fun c => c.id == cid)).map f := by
  induction l with
  | nil => rfl
  | cons c rest ih =>
    by_cases h : (c.id == cid) = true
    · have h1 : ((f c).id == cid) = true := by rw [hid]; exact h
      rw [List.map_cons, if_pos h, List.find?_cons, List.find?_cons, h1, h]
      rfl
    · have h2 : (c.id == cid) = false := by simpa using h
      rw [List.map_cons, if_neg h, List.find?_cons, List.find?_cons, h2]
      exact ih

theorem findClient_updateClient (st : AppState) (cid : Nat) (f : Client → Client)
    (hid : ∀ c, (f c).id = c.id) :
    findClient (updateClient st cid f) cid = (findClient st cid).map f :=
  find?_clients_map st.clients cid f hid

/-! ## Approval counting -/

/-- Number of Approval rows for a (post, user) pair. -/
def countApprovals (st : AppState) (pid : String) (uid : Nat) : Nat :=
  (st.approvals.filter (fun a => a.postId == pid && a.userId == uid)).length

/-- Number of Approval rows of a post whose status is approved. -/
def approvedCount (st : AppState) (pid : String) : Nat :=
  ((approvalsFor st pid).filter (fun a => a.status == ApprovalStatus.approved)).length

/-- Total number of Approval rows of a post. -/
def totalCount (st : AppState) (pid : String) : Nat :=
  (approvalsFor st pid).length

theorem findApproval_none_iff (st : AppState) (pid : String) (uid : Nat) :
    findApproval st pid uid = none ↔ countApprovals st pid uid = 0 := by
  unfold findApproval countApprovals
  rw [List.find?_eq_none, List.length_eq_zero, List.filter_eq_nil_iff]

/-! ## Lemmas about one Assign Approvers step -/

theorem countApprovals_updateClient (st : AppState) (cid : Nat) (f : Client → Client)
    (pid : String) (uid : Nat) :
    countApprovals (updateClient st cid f) pid uid = countApprovals st pid uid := rfl

theorem countApprovals_append_hit (st : AppState) (pid : String) (uid : Nat) :
    countApprovals { st with approvals := st.approvals ++ [⟨pid, uid, .pending⟩] } pid uid =
      countApprovals st pid uid + 1 := by
  unfold countApprovals
  simp

theorem countApprovals_append_miss (st : AppState) (pid : String) (uid : Nat)
    (pid2 : String) (uid2 : Nat) (h : ¬ (pid2 = pid ∧ uid2 = uid)) :
    countApprovals { st with approvals := st.approvals ++ [⟨pid, uid, .pending⟩] } pid2 uid2 =
      countApprovals st pid2 uid2 := by
  unfold countApprovals
  simp only [List.filter_append, List.length_append]
  have hz : ([(⟨pid, uid, .pending⟩ : Approval)].filter
      (fun a => a.postId == pid2 && a.userId == uid2)).length = 0 := by
    by_cases h1 : pid2 = pid
    · by_cases h2 : uid2 = uid
      · exact absurd ⟨h1, h2⟩ h
      · have hb : (uid == uid2) = false :=
          beq_eq_false_iff_ne.mpr (fun hcon => h2 hcon.symm)
        simp [List.filter, hb]
    · have hb : (pid == pid2) = false :=
        beq_eq_false_iff_ne.mpr (fun hcon => h1 hcon.symm)
      simp [List.filter, hb]
  omega

theorem addApprovalIfAbsent_entities (st : AppState) (pid : String) (uid : Nat) :
    (addApprovalIfAbsent st pid uid).users = st.users ∧
    (addApprovalIfAbsent st pid uid).posts = st.posts ∧
    (addApprovalIfAbsent st pid uid).clients = st.clients ∧
    (addApprovalIfAbsent st pid uid).workflows = st.workflows ∧
    (addApprovalIfAbsent st pid uid).revisions = st.revisions := by
  unfold addApprovalIfAbsent
  cases findApproval st pid uid <;> exact ⟨rfl, rfl, rfl, rfl, rfl⟩

theorem assignOne_ok_view (cid : Nat) (pid : String) (st : AppState) (j : Json)
    (st2 : AppState) (h : assignOne cid pid st j = .ok st2) :
    ∃ u c, findUserByName st j = some u ∧ findClient st cid = some c ∧
      st2 = addApprovalIfAbsent
        (if c.approvers.contains u.id then st
         else updateClient st cid
           (fun c0 => { c0 with approvers := c0.approvers ++ [u.id] }))
        pid u.id := by
  unfold assignOne at h
  cases hu : findUserByName st j with
  | none => rw [hu] at h; exact absurd h (by simp)
  | some u =>
    rw [hu] at h
    cases hc : findClient st cid with
    | none => rw [hc] at h; exact absurd h (by simp)
    | some c =>
      rw [hc] at h
      cases h
      exact ⟨u, c, rfl, rfl, rfl⟩

theorem countApprovals_clients_irrel (st : AppState) (cl : List Client) (pid : String)
    (uid : Nat) : countApprovals { st with clients := cl } pid uid = countApprovals st pid uid :=
  rfl

theorem addApprovalIfAbsent_count_self (st : AppState) (pid : String) (uid : Nat) :
    countApprovals (addApprovalIfAbsent st pid uid) pid uid =
      max 1 (countApprovals st pid uid) := by
  unfold addApprovalIfAbsent
  cases ha : findApproval st pid uid with
  | none =>
    have h0 : countApprovals st pid uid = 0 := (findApproval_none_iff st pid uid).mp ha
    rw [countApprovals_append_hit, h0]
    omega
  | some a =>
    have h1 : ¬ countApprovals st pid uid = 0 := by
      intro h0
      rw [← findApproval_none_iff] at h0
      rw [ha] at h0
      cases h0
    dsimp only
    omega

theorem addApprovalIfAbsent_count_other (st : AppState) (pid : String) (uid : Nat)
    (pid2 : String) (uid2 : Nat) (h : ¬ (pid2 = pid ∧ uid2 = uid)) :
    countApprovals (addApprovalIfAbsent st pid uid) pid2 uid2 =
      countApprovals st pid2 uid2 := by
  unfold addApprovalIfAbsent
  cases findApproval st pid uid with
  | none => rw [countApprovals_append_miss st pid uid pid2 uid2 h]
  | some a => rfl

theorem assignOne_entities (cid : Nat) (pid : String) (st : AppState) (j : Json)
    (st2 : AppState) (h : assignOne cid pid st j = .ok st2) :
    st2.users = st.users ∧ st2.posts = st.posts ∧ st2.workflows = st.workflows ∧
      st2.revisions = st.revisions := by
  obtain ⟨u, c, hu, hc, hst⟩ := assignOne_ok_view cid pid st j st2 h
  subst hst
  by_cases hmem : c.approvers.contains u.id = true
  · rw [if_pos hmem]
    obtain ⟨e1, e2, _, e4, e5⟩ := addApprovalIfAbsent_entities st pid u.id
    exact ⟨e1, e2, e4, e5⟩
  · rw [if_neg hmem]
    obtain ⟨e1, e2, _, e4, e5⟩ := addApprovalIfAbsent_entities
      (updateClient st cid (fun c0 => { c0 with approvers := c0.approvers ++ [u.id] })) pid u.id
    exact ⟨e1, e2, e4, e5⟩

theorem findClient_clients_eq (st st2 : AppState) (cid : Nat)
    (h : st2.clients = st.clients) : findClient st2 cid = findClient st cid := by
  unfold findClient
  rw [h]

/-- After a successful Assign Approvers step, the resolved user is an
approver of the client and has at least one Approval row for the post. -/
theorem assignOne_establishes (cid : Nat) (pid : String) (st : AppState) (j : Json)
    (st2 : AppState) (u : User) (h : assignOne cid pid st j = .ok st2)
    (hu : findUserByName st j = some u) :
    (∃ c2, findClient st2 cid = some c2 ∧ u.id ∈ c2.approvers) ∧
      countApprovals st2 pid u.id = max 1 (countApprovals st pid u.id) := by
  obtain ⟨u2, c, hu2, hc, hst⟩ := assignOne_ok_view cid pid st j st2 h
  rw [hu] at hu2
  cases hu2
  subst hst
  by_cases hmem : c.approvers.contains u.id = true
  · rw [if_pos hmem]
    constructor
    · obtain ⟨_, _, e3, _, _⟩ := addApprovalIfAbsent_entities st pid u.id
      rw [findClient_clients_eq _ _ cid e3, hc]
      exact ⟨c, rfl, by simpa using hmem⟩
    · exact addApprovalIfAbsent_count_self st pid u.id
  · rw [if_neg hmem]
    constructor
    · obtain ⟨_, _, e3, _, _⟩ := addApprovalIfAbsent_entities
        (updateClient st cid (fun c0 => { c0 with approvers := c0.approvers ++ [u.id] }))
        pid u.id
      rw [findClient_clients_eq _ _ cid e3,
        findClient_updateClient st cid
          (fun c0 => { c0 with approvers := c0.approvers ++ [u.id] }) (fun c0 => rfl), hc]
      exact ⟨_, rfl, by simp⟩
    · rw [addApprovalIfAbsent_count_self, countApprovals_updateClient]

/-- An Assign Approvers step never lowers an approval count and never
removes a user from the approver set of the client it touches. -/
theorem assignOne_mono (cid : Nat) (pid : String) (st : AppState) (j : Json)
    (st2 : AppState) (h : assignOne cid pid st j = .ok st2) :
    (∀ pid2 uid2, countApprovals st pid2 uid2 ≤ countApprovals st2 pid2 uid2) ∧
      (∀ x c, findClient st cid = some c → x ∈ c.approvers →
        ∃ c2, findClient st2 cid = some c2 ∧ x ∈ c2.approvers) := by
  obtain ⟨u, c, hu, hc, hst⟩ := assignOne_ok_view cid pid st j st2 h
  subst hst
  constructor
  · intro pid2 uid2
    by_cases hhit : pid2 = pid ∧ uid2 = u.id
    · obtain ⟨h1, h2⟩ := hhit
      subst h1
      subst h2
      by_cases hmem : c.approvers.contains u.id = true
      · rw [if_pos hmem, addApprovalIfAbsent_count_self]
        omega
      · rw [if_neg hmem, addApprovalIfAbsent_count_self, countApprovals_updateClient]
        omega
    · by_cases hmem : c.approvers.contains u.id = true
      · rw [if_pos hmem, addApprovalIfAbsent_count_other _ _ _ _ _ hhit]
      · rw [if_neg hmem, addApprovalIfAbsent_count_other _ _ _ _ _ hhit,
          countApprovals_updateClient]
  · intro x c1 hc1 hx
    rw [hc] at hc1
    injection hc1 with hcc
    subst hcc
    by_cases hmem : c.approvers.contains u.id = true
    · rw [if_pos hmem]
      obtain ⟨_, _, e3, _, _⟩ := addApprovalIfAbsent_entities st pid u.id
      rw [findClient_clients_eq _ _ cid e3, hc]
      exact ⟨c, rfl, hx⟩
    · rw [if_neg hmem]
      obtain ⟨_, _, e3, _, _⟩ := addApprovalIfAbsent_entities
        (updateClient st cid (fun c0 => { c0 with approvers := c0.approvers ++ [u.id] }))
        pid u.id
      rw [findClient_clients_eq _ _ cid e3,
        findClient_updateClient st cid
          (fun c0 => { c0 with approvers := c0.approvers ++ [u.id] }) (fun c0 => rfl), hc]
      exact ⟨_, rfl, by simp [hx]⟩

/-- When the resolved user is already an approver and already has an
Approval row, an Assign Approvers step changes nothing. -/
theorem assignOne_idem (cid : Nat) (pid : String) (st : AppState) (j : Json) (u : User)
    (c : Client) (hu : findUserByName st j = some u) (hc : findClient st cid = some c)
    (hmem : u.id ∈ c.approvers) (hcount : 1 ≤ countApprovals st pid u.id) :
    assignOne cid pid st j = .ok st := by
  unfold assignOne
  rw [hu, hc]
  dsimp only
  have hmem2 : c.approvers.contains u.id = true := by simpa using hmem
  rw [if_pos hmem2]
  unfold addApprovalIfAbsent
  cases ha : findApproval st pid u.id with
  | none =>
    have h0 := (findApproval_none_iff st pid u.id).mp ha
    omega
  | some a => rfl

theorem findUserByName_users_eq (st st2 : AppState) (j : Json)
    (h : st2.users = st.users) : findUserByName st2 j = findUserByName st j := by
  unfold findUserByName
  rw [h]

theorem except_bind_ok {α β ε : Type} (a : α) (g : α → Except ε β) :
    (Except.ok a >>= g) = g a := rfl

theorem except_bind_err {α β ε : Type} (e : ε) (g : α → Except ε β) :
    ((Except.error e : Except ε α) >>= g) = Except.error e := rfl

/-- Per-pair approval-count effect of one Assign Approvers step: each count
either is unchanged or becomes the maximum of one and its old value. -/
theorem assignOne_count_char (cid : Nat) (pid : String) (st : AppState) (j : Json)
    (st2 : AppState) (h : assignOne cid pid st j = .ok st2) (pid2 : String) (uid2 : Nat) :
    countApprovals st2 pid2 uid2 = countApprovals st pid2 uid2 ∨
      countApprovals st2 pid2 uid2 = max 1 (countApprovals st pid2 uid2) := by
  obtain ⟨u, c, hu, hc, hst⟩ := assignOne_ok_view cid pid st j st2 h
  subst hst
  by_cases hhit : pid2 = pid ∧ uid2 = u.id
  · obtain ⟨h1, h2⟩ := hhit
    subst h1
    subst h2
    right
    by_cases hmem : c.approvers.contains u.id = true
    · rw [if_pos hmem, addApprovalIfAbsent_count_self]
    · rw [if_neg hmem, addApprovalIfAbsent_count_self, countApprovals_updateClient]
  · left
    by_cases hmem : c.approvers.contains u.id = true
    · rw [if_pos hmem, addApprovalIfAbsent_count_other _ _ _ _ _ hhit]
    · rw [if_neg hmem, addApprovalIfAbsent_count_other _ _ _ _ _ hhit,
        countApprovals_updateClient]

/-- Combined induction over the Assign Approvers username loop: frame
conditions, count monotonicity and characterization, the establishment of
approver membership and a pending Approval for every resolved username, and
idempotence of the whole loop. -/
theorem assignFold_main (cid : Nat) (pid : String) :
    ∀ (l : List Json) (st st2 : AppState),
      l.foldlM (assignOne cid pid) st = .ok st2 →
      (st2.users = st.users ∧ st2.posts = st.posts ∧ st2.workflows = st.workflows ∧
         st2.revisions = st.revisions) ∧
      (∀ pid2 uid2, countApprovals st pid2 uid2 ≤ countApprovals st2 pid2 uid2) ∧
      (∀ x c, findClient st cid = some c → x ∈ c.approvers →
         ∃ c2, findClient st2 cid = some c2 ∧ x ∈ c2.approvers) ∧
      (∀ j ∈ l, ∀ u, findUserByName st j = some u →
         (∃ c2, findClient st2 cid = some c2 ∧ u.id ∈ c2.approvers) ∧
           1 ≤ countApprovals st2 pid u.id) ∧
      (∀ pid2 uid2, countApprovals st2 pid2 uid2 = countApprovals st pid2 uid2 ∨
         countApprovals st2 pid2 uid2 = max 1 (countApprovals st pid2 uid2)) ∧
      l.foldlM (assignOne cid pid) st2 = .ok st2 := by
  intro l
  induction l with
  | nil =>
    intro st st2 h
    rw [List.foldlM_nil] at h
    cases h
    refine ⟨⟨rfl, rfl, rfl, rfl⟩, fun _ _ => le_refl _, ?_, ?_, fun _ _ => Or.inl rfl, ?_⟩
    · intro x c hc hx
      exact ⟨c, hc, hx⟩
    · intro j hj
      cases hj
    · rw [List.foldlM_nil]
      rfl
  | cons j l ih =>
    intro st st2 h
    rw [List.foldlM_cons] at h
    cases hs : assignOne cid pid st j with
    | error e => rw [hs, except_bind_err] at h; cases h
    | ok st1 =>
      rw [hs, except_bind_ok] at h
      obtain ⟨hent1, hmono1, hmem1, hel1, hchar1, hidem1⟩ := ih st1 st2 h
      obtain ⟨eu, ep, ew, er⟩ := assignOne_entities cid pid st j st1 hs
      obtain ⟨hcm, hmm⟩ := assignOne_mono cid pid st j st1 hs
      have hcomp : ∀ pid2 uid2,
          countApprovals st pid2 uid2 ≤ countApprovals st2 pid2 uid2 := by
        intro pid2 uid2
        exact le_trans (hcm pid2 uid2) (hmono1 pid2 uid2)
      refine ⟨⟨?_, ?_, ?_, ?_⟩, hcomp, ?_, ?_, ?_, ?_⟩
      · rw [hent1.1, eu]
      · rw [hent1.2.1, ep]
      · rw [hent1.2.2.1, ew]
      · rw [hent1.2.2.2, er]
      · intro x c hc hx
        obtain ⟨c1, hc1, hx1⟩ := hmm x c hc hx
        exact hmem1 x c1 hc1 hx1
      · intro j2 hj2 u hu
        rcases List.mem_cons.mp hj2 with hj2 | hj2
        · subst hj2
          obtain ⟨⟨c1, hc1, hx1⟩, hcnt1⟩ := assignOne_establishes cid pid st j2 st1 u hs hu
          refine ⟨hmem1 u.id c1 hc1 hx1, ?_⟩
          have := hmono1 pid u.id
          omega
        · have hu1 : findUserByName st1 j2 = some u := by
            rw [findUserByName_users_eq st st1 j2 eu, hu]
          exact hel1 j2 hj2 u hu1
      · intro pid2 uid2
        have h1 := assignOne_count_char cid pid st j st1 hs pid2 uid2
        have h2 := hchar1 pid2 uid2
        rcases h1 with h1 | h1 <;> rcases h2 with h2 | h2
        · exact Or.inl (by rw [h2, h1])
        · exact Or.inr (by rw [h2, h1])
        · exact Or.inr (by rw [h2, h1])
        · refine Or.inr ?_
          rw [h2, h1]
          omega
      · rw [List.foldlM_cons]
        have hstep : assignOne cid pid st2 j = .ok st2 := by
          obtain ⟨u, c, hu, hc, _⟩ := assignOne_ok_view cid pid st j st1 hs
          have hu2 : findUserByName st2 j = some u := by
            rw [findUserByName_users_eq st st2 j (by rw [hent1.1, eu]), hu]
          obtain ⟨⟨c2, hc2, hx2⟩, hcnt2⟩ :=
            (by
              intro u0 hu0
              exact assignOne_establishes cid pid st j st1 u0 hs hu0 :
              ∀ u0, findUserByName st j = some u0 →
                (∃ c2, findClient st1 cid = some c2 ∧ u0.id ∈ c2.approvers) ∧
                  countApprovals st1 pid u0.id = max 1 (countApprovals st pid u0.id)) u hu
          obtain ⟨c3, hc3, hx3⟩ := hmem1 u.id c2 hc2 hx2
          have hcnt3 : 1 ≤ countApprovals st2 pid u.id := by
            have := hmono1 pid u.id
            omega
          exact assignOne_idem cid pid st2 j u c3 hu2 hc3 hx3 hcnt3
        rw [hstep, except_bind_ok]
        exact hidem1

/-! ## Workflow documents used by the claims -/

/-- Workflow document holding a single Assign Approvers action with the
given approvers option, as the canvas saves it. -/
def assignDoc (usernames : List String) : Json :=
  Json.arr [Json.obj [("type", Json.str "action"), ("name", Json.str "Assign Approvers"),
    ("options", Json.arr [Json.obj [("name", Json.str "approvers"),
      ("value", Json.arr (usernames.map Json.str))]])]]

/-- Workflow document holding a single Set Deadline action with the given
days option. -/
def setDeadlineDoc (days : String) : Json :=
  Json.arr [Json.obj [("type", Json.str "action"), ("name", Json.str "Set Deadline"),
    ("options", Json.arr [Json.obj [("name", Json.str "days"),
      ("value", Json.str days)]])]]

/-- Workflow document with an Assign Approvers action followed by a Queue
Post action. -/
def assignThenQueueDoc (usernames : List String) : Json :=
  Json.arr [Json.obj [("type", Json.str "action"), ("name", Json.str "Assign Approvers"),
    ("options", Json.arr [Json.obj [("name", Json.str "approvers"),
      ("value", Json.arr (usernames.map Json.str))]])],
    Json.obj [("type", Json.str "action"), ("name", Json.str "Queue Post")]]

/-- Applying a workflow whose document is a single Assign Approvers action
reduces to the username loop. -/
theorem apply_workflow_assignDoc (st : AppState) (pid : String) (wid cid : Nat)
    (wname : String) (usernames : List String) :
    apply_workflow st pid (some ⟨wid, cid, wname, json_dumps (assignDoc usernames)⟩) =
      match findPost st pid with
      | none => .error .missingRow
      | some post => (usernames.map Json.str).foldlM (assignOne post.clientId pid) st := by
  unfold apply_workflow
  dsimp only
  rw [json_roundtrip]
  cases hp : findPost st pid with
  | none => rfl
  | some post =>
    show ((usernames.map Json.str).foldlM (assignOne post.clientId pid) st >>= pure) = _
    rw [bind_pure]

/-! ## Status tracking through the workflow engine -/

/-- The post list after an unconditional status write to one post. -/
def setStatuses (l : List Post) (pid : String) (s : Status) : List Post :=
  l.map (fun p => if p.id == pid then { p with status := s } else p)

theorem setStatuses_setStatuses (l : List Post) (pid : String) (s1 s2 : Status) :
    setStatuses (setStatuses l pid s1) pid s2 = setStatuses l pid s2 := by
  unfold setStatuses
  rw [List.map_map]
  apply List.map_congr_left
  intro p _
  by_cases h : (p.id == pid) = true
  · have hp : p.id = pid := by simpa using h
    simp [Function.comp, hp]
  · have hp : ¬ p.id = pid := by simpa using h
    simp [Function.comp, hp]

theorem applyComp_posts (cid : Nat) (pid : String) (st : AppState) (comp : Json)
    (st2 : AppState) (h : applyComp cid pid st comp = .ok st2) :
    st2.posts = st.posts ∨ st2.posts = setStatuses st.posts pid .queued ∨
      st2.posts = setStatuses st.posts pid .posted := by
  unfold applyComp at h
  repeat' split at h
  all_goals
    first
      | (cases h <;> exact Or.inl rfl)
      | (cases h <;> exact Or.inr (Or.inl rfl))
      | (cases h <;> exact Or.inr (Or.inr rfl))
      | exact Or.inl ((assignFold_main cid pid _ st st2 h).1.2.1)

theorem applyFold_posts (cid : Nat) (pid : String) :
    ∀ (l : List Json) (st st2 : AppState),
      l.foldlM (applyComp cid pid) st = .ok st2 →
      st2.posts = st.posts ∨ st2.posts = setStatuses st.posts pid .queued ∨
        st2.posts = setStatuses st.posts pid .posted := by
  intro l
  induction l with
  | nil =>
    intro st st2 h
    rw [List.foldlM_nil] at h
    cases h
    exact Or.inl rfl
  | cons c l ih =>
    intro st st2 h
    rw [List.foldlM_cons] at h
    cases hs : applyComp cid pid st c with
    | error e => rw [hs, except_bind_err] at h; cases h
    | ok st1 =>
      rw [hs, except_bind_ok] at h
      have h1 := applyComp_posts cid pid st c st1 hs
      have h2 := ih st1 st2 h
      rcases h2 with h2 | h2 | h2 <;> rcases h1 with h1 | h1 | h1 <;> rw [h2, h1] <;>
        simp [setStatuses_setStatuses]

theorem apply_workflow_posts (st : AppState) (pid : String) (wf : Option Workflow)
    (st2 : AppState) (h : apply_workflow st pid wf = .ok st2) :
    st2.posts = st.posts ∨ st2.posts = setStatuses st.posts pid .queued ∨
      st2.posts = setStatuses st.posts pid .posted := by
  unfold apply_workflow at h
  repeat' split at h
  all_goals
    first
      | (cases h <;> exact Or.inl rfl)
      | exact applyFold_posts _ pid _ st st2 h

/-- A successful apply_workflow leaves the processed post present, with its
status unchanged or overwritten to queued or posted. -/
theorem apply_workflow_findPost (st : AppState) (pid : String) (wf : Option Workflow)
    (st2 : AppState) (h : apply_workflow st pid wf = .ok st2) (p : Post)
    (hp : findPost st pid = some p) :
    ∃ p2, findPost st2 pid = some p2 ∧
      (p2.status = p.status ∨ p2.status = .queued ∨ p2.status = .posted) := by
  rcases apply_workflow_posts st pid wf st2 h with h1 | h1 | h1
  · refine ⟨p, ?_, Or.inl rfl⟩
    unfold findPost
    rw [h1]
    exact hp
  · refine ⟨{ p with status := .queued }, ?_, Or.inr (Or.inl rfl)⟩
    unfold findPost
    rw [h1]
    unfold setStatuses
    rw [find?_posts_map st.posts pid
      (fun p0 => { p0 with status := .queued }) (fun _ => rfl)]
    unfold findPost at hp
    rw [hp]
    rfl
  · refine ⟨{ p with status := .posted }, ?_, Or.inr (Or.inr rfl)⟩
    unfold findPost
    rw [h1]
    unfold setStatuses
    rw [find?_posts_map st.posts pid
      (fun p0 => { p0 with status := .posted }) (fun _ => rfl)]
    unfold findPost at hp
    rw [hp]
    rfl

/-- The recomputation step leaves the post in place: its status is either
untouched or set to approved, or overwritten to queued or posted by a
re-invoked workflow. -/
theorem post_detail_recompute_findPost (stA : AppState) (cid2 : Nat) (pid : String)
    (p : Post) (hp : findPost stA pid = some p) (p2 : Post)
    (hp2 : findPost (post_detail_recompute stA cid2 pid).2 pid = some p2) :
    p2 = p ∨ p2.status = .approved ∨ p2.status = .queued ∨ p2.status = .posted := by
  unfold post_detail_recompute at hp2
  by_cases hall : ((approvalsFor stA pid).all (fun a => a.status == .approved)) = true
  · rw [if_pos hall] at hp2
    cases hc : findClient stA cid2 with
    | none =>
      rw [hc] at hp2
      rw [hp] at hp2
      injection hp2 with h
      exact Or.inl h.symm
    | some c =>
      rw [hc] at hp2
      try dsimp only at hp2
      cases hw : c.activeWorkflowId.bind (findWorkflow stA) with
      | none =>
        rw [hw] at hp2
        try dsimp only at hp2
        rw [findPost_updatePost stA pid
          (fun p0 => { p0 with status := .approved }) (fun _ => rfl), hp] at hp2
        injection hp2 with h
        exact Or.inr (Or.inl (by rw [← h]))
      | some w =>
        rw [hw] at hp2
        try dsimp only at hp2
        cases hl : json_loads w.components with
        | none =>
          rw [hl] at hp2
          try dsimp only at hp2
          rw [hp] at hp2
          injection hp2 with h
          exact Or.inl h.symm
        | some comps =>
          rw [hl] at hp2
          try dsimp only at hp2
          cases hi : pyIter comps with
          | error e =>
            rw [hi] at hp2
            try dsimp only at hp2
            rw [hp] at hp2
            injection hp2 with h
            exact Or.inl h.symm
          | ok compList =>
            rw [hi] at hp2
            try dsimp only at hp2
            cases hsc : scanPostApproved compList with
            | error e =>
              rw [hsc] at hp2
              try dsimp only at hp2
              rw [hp] at hp2
              injection hp2 with h
              exact Or.inl h.symm
            | ok b =>
              rw [hsc] at hp2
              try dsimp only at hp2
              cases b with
              | false =>
                rw [findPost_updatePost stA pid
                  (fun p0 => { p0 with status := .approved }) (fun _ => rfl), hp] at hp2
                injection hp2 with h
                exact Or.inr (Or.inl (by rw [← h]))
              | true =>
                cases hap : apply_workflow
                    (updatePost stA pid (fun p0 => { p0 with status := .approved }))
                    pid (some w) with
                | error e =>
                  rw [hap] at hp2
                  try dsimp only at hp2
                  rw [hp] at hp2
                  injection hp2 with h
                  exact Or.inl h.symm
                | ok stC =>
                  rw [hap] at hp2
                  try dsimp only at hp2
                  have hpB : findPost
                      (updatePost stA pid (fun p0 => { p0 with status := .approved })) pid =
                      some { p with status := .approved } := by
                    rw [findPost_updatePost stA pid
                      (fun p0 => { p0 with status := .approved }) (fun _ => rfl), hp]
                    rfl
                  obtain ⟨p3, hp3, hst3⟩ := apply_workflow_findPost _ pid (some w) stC hap
                    { p with status := .approved } hpB
                  rw [hp3] at hp2
                  injection hp2 with h
                  subst h
                  rcases hst3 with h3 | h3 | h3
                  · exact Or.inr (Or.inl h3)
                  · exact Or.inr (Or.inr (Or.inl h3))
                  · exact Or.inr (Or.inr (Or.inr h3))
  · rw [if_neg hall] at hp2
    rw [hp] at hp2
    injection hp2 with h
    exact Or.inl h.symm


/-- Recording an approval leaves the post in place with its status
untouched, set to approved, or overwritten by a re-invoked workflow. -/
theorem post_detail_findPost (st : AppState) (uid : Nat) (pid act : String) (p p2 : Post)
    (hp : findPost st pid = some p)
    (hp2 : findPost (post_detail st uid pid act).2 pid = some p2) :
    p2 = p ∨ p2.status = .approved ∨ p2.status = .queued ∨ p2.status = .posted := by
  unfold post_detail at hp2
  rw [hp] at hp2
  try dsimp only at hp2
  cases hu : findUser st uid with
  | none =>
    rw [hu] at hp2
    try dsimp only at hp2
    rw [hp] at hp2
    injection hp2 with h
    exact Or.inl h.symm
  | some user =>
    rw [hu] at hp2
    try dsimp only at hp2
    cases ha : findApproval st pid user.id with
    | none =>
      rw [ha] at hp2
      try dsimp only at hp2
      rw [hp] at hp2
      injection hp2 with h
      exact Or.inl h.symm
    | some ap =>
      rw [ha] at hp2
      try dsimp only at hp2
      by_cases hact : (act == "approve") = true
      · rw [if_pos hact] at hp2
        refine post_detail_recompute_findPost _ _ pid p ?_ p2 hp2
        exact hp
      · rw [if_neg hact] at hp2
        by_cases hact2 : (act == "reject") = true
        · rw [if_pos hact2] at hp2
          refine post_detail_recompute_findPost _ _ pid p ?_ p2 hp2
          exact hp
        · rw [if_neg hact2] at hp2
          refine post_detail_recompute_findPost _ _ pid p ?_ p2 hp2
          exact hp

/-- The queue route only ever advances a post status (approved to queued,
queued to posted); every failure leaves the state unchanged. -/
theorem queue_rank (st : AppState) (pid act : String) (p p2 : Post)
    (hp : findPost st pid = some p)
    (hp2 : findPost (queue st pid act).2 pid = some p2) :
    p.status.rank ≤ p2.status.rank := by
  unfold queue at hp2
  rw [hp] at hp2
  try dsimp only at hp2
  by_cases h1 : (act == "queue") = true
  · rw [if_pos h1] at hp2
    by_cases h2 : (!(p.status == Status.approved)) = true
    · rw [if_pos h2] at hp2
      rw [hp] at hp2
      injection hp2 with h
      rw [h]
    · rw [if_neg h2] at hp2
      have hap : p.status = Status.approved := by
        simpa using h2
      cases hs : p.scheduleDate with
      | some d =>
        rw [hs] at hp2
        try dsimp only at hp2
        rw [hp] at hp2
        injection hp2 with h
        rw [h]
      | none =>
        rw [hs] at hp2
        try dsimp only at hp2
        rw [findPost_updatePost st pid
          (fun p0 => { p0 with status := .queued }) (fun _ => rfl), hp] at hp2
        injection hp2 with h
        rw [← h, hap]
        exact (show Status.approved.rank ≤ Status.queued.rank by decide)
  · rw [if_neg h1] at hp2
    by_cases h3 : (act == "post_now") = true
    · rw [if_pos h3] at hp2
      by_cases h4 : (!(p.status == Status.queued)) = true
      · rw [if_pos h4] at hp2
        rw [hp] at hp2
        injection hp2 with h
        rw [h]
      · rw [if_neg h4] at hp2
        have hq : p.status = Status.queued := by simpa using h4
        rw [findPost_updatePost st pid
          (fun p0 => { p0 with status := .posted }) (fun _ => rfl), hp] at hp2
        injection hp2 with h
        rw [← h, hq]
        exact (show Status.queued.rank ≤ Status.posted.rank by decide)
    · rw [if_neg h3] at hp2
      rw [hp] at hp2
      injection hp2 with h
      rw [h]

theorem filter_length_eq_iff_all {α : Type} (l : List α) (q : α → Bool) :
    (l.filter q).length = l.length ↔ l.all q = true := by
  induction l with
  | nil => simp
  | cons a l ih =>
    by_cases h : q a = true
    · simp [List.filter_cons, List.all_cons, h, ih]
    · have hf : q a = false := by simpa using h
      rw [List.filter_cons_of_neg h, List.all_cons, hf]
      simp only [Bool.false_and, List.length_cons]
      have hle := List.length_filter_le q l
      constructor
      · intro hcon
        omega
      · intro hcon
        cases hcon

/-- Equality of the approved count and the total count is exactly the
all-approved condition that the recomputation of post_detail tests. -/
theorem approvedCount_eq_totalCount_iff (st : AppState) (pid : String) :
    approvedCount st pid = totalCount st pid ↔
      (approvalsFor st pid).all (fun a => a.status == ApprovalStatus.approved) = true :=
  filter_length_eq_iff_all (approvalsFor st pid) (fun a => a.status == ApprovalStatus.approved)

/-- When the recomputation reports updated, either the all-approved test
failed and the state is exactly the committed stA, or the post now has a
status of rank at least that of approved. -/
theorem post_detail_recompute_updated (stA : AppState) (cid2 : Nat) (pid : String)
    (p : Post) (hp : findPost stA pid = some p)
    (hres : (post_detail_recompute stA cid2 pid).1 = .updated) :
    ((post_detail_recompute stA cid2 pid).2 = stA ∧
      ((approvalsFor stA pid).all (fun a => a.status == ApprovalStatus.approved)) = false) ∨
    (∃ p2, findPost (post_detail_recompute stA cid2 pid).2 pid = some p2 ∧
      Status.approved.rank ≤ p2.status.rank) := by
  unfold post_detail_recompute at hres ⊢
  by_cases hall : ((approvalsFor stA pid).all (fun a => a.status == .approved)) = true
  · rw [if_pos hall] at hres ⊢
    right
    cases hc : findClient stA cid2 with
    | none =>
      rw [hc] at hres
      simp at hres
    | some c =>
      rw [hc] at hres
      try dsimp only at hres
      try dsimp only
      cases hw : c.activeWorkflowId.bind (findWorkflow stA) with
      | none =>
        rw [hw] at hres
        try dsimp only at hres
        try dsimp only
        refine ⟨{ p with status := .approved }, ?_, Nat.le_refl _⟩
        rw [findPost_updatePost stA pid
          (fun p0 => { p0 with status := .approved }) (fun _ => rfl), hp]
        rfl
      | some w =>
        rw [hw] at hres
        try dsimp only at hres
        try dsimp only
        cases hl : json_loads w.components with
        | none =>
          rw [hl] at hres
          simp at hres
        | some comps =>
          rw [hl] at hres
          try dsimp only at hres
          try dsimp only
          cases hi : pyIter comps with
          | error e =>
            rw [hi] at hres
            simp at hres
          | ok compList =>
            rw [hi] at hres
            try dsimp only at hres
            try dsimp only
            cases hsc : scanPostApproved compList with
            | error e =>
              rw [hsc] at hres
              simp at hres
            | ok b =>
              rw [hsc] at hres
              try dsimp only at hres
              try dsimp only
              cases b with
              | false =>
                refine ⟨{ p with status := .approved }, ?_, Nat.le_refl _⟩
                rw [findPost_updatePost stA pid
                  (fun p0 => { p0 with status := .approved }) (fun _ => rfl), hp]
                rfl
              | true =>
                cases hap : apply_workflow
                    (updatePost stA pid (fun p0 => { p0 with status := .approved }))
                    pid (some w) with
                | error e =>
                  rw [hap] at hres
                  simp at hres
                | ok stC =>
                  rw [hap] at hres
                  try dsimp only at hres
                  try dsimp only
                  have hpB : findPost
                      (updatePost stA pid (fun p0 => { p0 with status := .approved })) pid =
                      some { p with status := .approved } := by
                    rw [findPost_updatePost stA pid
                      (fun p0 => { p0 with status := .approved }) (fun _ => rfl), hp]
                    rfl
                  obtain ⟨p3, hp3, hst3⟩ := apply_workflow_findPost _ pid (some w) stC hap
                    { p with status := .approved } hpB
                  refine ⟨p3, hp3, ?_⟩
                  rcases hst3 with h3 | h3 | h3 <;> rw [h3]
                  · exact (show Status.approved.rank ≤ Status.queued.rank by decide)
                  · exact (show Status.approved.rank ≤ Status.posted.rank by decide)
  · rw [if_neg hall] at hres ⊢
    left
    exact ⟨rfl, by simpa using hall⟩

/-! ## Claim C1 -/

/-- The post of a state has status of rank at least that of approved. -/
def postStatusAtLeastApproved (st : AppState) (pid : String) : Prop :=
  ∃ p, findPost st pid = some p ∧ Status.approved.rank ≤ p.status.rank

def c1User : User := ⟨1, "ann", false⟩

def c1Client : Client := ⟨1, 1, "acme", 7, none, []⟩

def c1St0 : AppState := ⟨[c1User], [c1Client], [], [], [], [], 1⟩

def c1St1 : AppState :=
  (client_posts c1St0 1 1 "p1" "hello" none none none ⟨2024, 1, 1⟩).2

/-- C1 as stated is false: a post created under a client with no approvers
and no active workflow has zero Approval rows, so the approved count
trivially equals the total count, while its status is pending, which is
below approved in the order draft, pending, approved, queued, posted. -/
theorem C1_counterexample :
    (client_posts c1St0 1 1 "p1" "hello" none none none ⟨2024, 1, 1⟩).1 = .created ∧
    approvedCount c1St1 "p1" = totalCount c1St1 "p1" ∧
    ¬ (approvedCount c1St1 "p1" = totalCount c1St1 "p1" ↔
        postStatusAtLeastApproved c1St1 "p1") := by
  refine ⟨rfl, rfl, fun hiff => ?_⟩
  obtain ⟨p, hp, hr⟩ := hiff.mp rfl
  have hpv : findPost c1St1 "p1" =
      some ⟨"p1", 1, "hello", none, none, ⟨2024, 1, 1⟩, none, .pending⟩ := rfl
  rw [hpv] at hp
  injection hp with hp2
  rw [← hp2] at hr
  exact absurd hr (by decide)

theorem C1_case_recompute (stA : AppState) (cid2 : Nat) (pid : String) (p : Post)
    (hp : findPost stA pid = some p)
    (hres : (post_detail_recompute stA cid2 pid).1 = .updated)
    (hcnt : approvedCount (post_detail_recompute stA cid2 pid).2 pid =
            totalCount (post_detail_recompute stA cid2 pid).2 pid) :
    postStatusAtLeastApproved (post_detail_recompute stA cid2 pid).2 pid := by
  rcases post_detail_recompute_updated stA cid2 pid p hp hres with ⟨heq, hallf⟩ | hok
  · rw [heq] at hcnt
    have hall := (approvedCount_eq_totalCount_iff stA pid).mp hcnt
    rw [hallf] at hall
    cases hall
  · exact hok

/-- C1 amended: the equality of approved count and total count is not a
state invariant, but immediately after a successful recordApproval whose
final state satisfies the count equality, the status of the post is at
least approved. -/
theorem C1_amended (st : AppState) (uid : Nat) (pid act : String)
    (hres : (post_detail st uid pid act).1 = .updated)
    (hcnt : approvedCount (post_detail st uid pid act).2 pid =
            totalCount (post_detail st uid pid act).2 pid) :
    postStatusAtLeastApproved (post_detail st uid pid act).2 pid := by
  unfold post_detail at hres hcnt ⊢
  cases hfp : findPost st pid with
  | none =>
    rw [hfp] at hres
    simp at hres
  | some post =>
    try rw [hfp] at hres
    try rw [hfp] at hcnt
    try dsimp only at hres hcnt ⊢
    cases hu : findUser st uid with
    | none =>
      rw [hu] at hres
      simp at hres
    | some user =>
      try rw [hu] at hres
      try rw [hu] at hcnt
      try dsimp only at hres hcnt ⊢
      cases ha : findApproval st pid user.id with
      | none =>
        rw [ha] at hres
        simp at hres
      | some ap =>
        try rw [ha] at hres
        try rw [ha] at hcnt
        try dsimp only at hres hcnt ⊢
        by_cases hact : (act == "approve") = true
        · try rw [if_pos hact] at hres
          try rw [if_pos hact] at hcnt
          try rw [if_pos hact]
          refine C1_case_recompute _ _ pid post ?_ hres hcnt
          exact hfp
        · try rw [if_neg hact] at hres
          try rw [if_neg hact] at hcnt
          try rw [if_neg hact]
          by_cases hact2 : (act == "reject") = true
          · try rw [if_pos hact2] at hres
            try rw [if_pos hact2] at hcnt
            try rw [if_pos hact2]
            refine C1_case_recompute _ _ pid post ?_ hres hcnt
            exact hfp
          · try rw [if_neg hact2] at hres
            try rw [if_neg hact2] at hcnt
            try rw [if_neg hact2]
            refine C1_case_recompute _ _ pid post ?_ hres hcnt
            exact hfp

def c1wClient : Client := ⟨1, 1, "acme", 7, none, [1]⟩

def c1wSt : AppState :=
  ⟨[c1User], [c1wClient],
   [⟨"p1", 1, "x", none, none, ⟨2024, 1, 1⟩, none, .pending⟩],
   [⟨"p1", 1, .pending⟩], [], [], 1⟩

theorem C1_amended_witness :
    postStatusAtLeastApproved (post_detail c1wSt 1 "p1" "approve").2 "p1" :=
  C1_amended c1wSt 1 "p1" "approve" (by rfl) (by rfl)

/-! ## Claim C2 -/

def c2User : User := ⟨1, "alice", false⟩

def c2Workflow : Workflow := ⟨1, 1, "auto", json_dumps (assignThenQueueDoc ["alice"])⟩

def c2Client : Client := ⟨1, 1, "acme", 7, some 1, []⟩

def c2St0 : AppState := ⟨[c2User], [c2Client], [], [], [], [c2Workflow], 2⟩

def c2St1 : AppState :=
  (client_posts c2St0 1 1 "p1" "hello" none none none ⟨2024, 1, 1⟩).2

def c2St2 : AppState := (post_detail c2St1 1 "p1" "approve").2

set_option maxRecDepth 1000000 in
/-- C2 as stated is false: a post created under a workflow that assigns an
approver and then queues the post is queued with a pending approval; when
the approver then approves, the recomputation of recordApproval moves the
status backwards from queued to approved. -/
theorem C2_counterexample :
    (findPost c2St1 "p1").map Post.status = some .queued ∧
    (post_detail c2St1 1 "p1" "approve").1 = .updated ∧
    (findPost c2St2 "p1").map Post.status = some .approved ∧
    Status.approved.rank < Status.queued.rank := by
  exact ⟨rfl, rfl, rfl, by decide⟩

/-- C2 amended: queuePost and postNow never move the status backwards;
recordApproval never moves it below approved, though its recomputation can
lower a queued or posted status back to approved; a successful
apply_workflow never moves it below queued; and once the status is at least
approved, a later recordApproval, in particular a rejection, leaves it at
least approved. -/
theorem C2_amended :
    (∀ st uid pid act p p2, findPost st pid = some p →
       findPost (post_detail st uid pid act).2 pid = some p2 →
       min p.status.rank Status.approved.rank ≤ p2.status.rank ∧
         (Status.approved.rank ≤ p.status.rank → Status.approved.rank ≤ p2.status.rank)) ∧
    (∀ st pid wf st2 p p2, apply_workflow st pid wf = .ok st2 →
       findPost st pid = some p → findPost st2 pid = some p2 →
       min p.status.rank Status.queued.rank ≤ p2.status.rank) ∧
    (∀ st pid act p p2, findPost st pid = some p →
       findPost (queue st pid act).2 pid = some p2 →
       p.status.rank ≤ p2.status.rank) := by
  refine ⟨?_, ?_, ?_⟩
  · intro st uid pid act p p2 hp hp2
    rcases post_detail_findPost st uid pid act p p2 hp hp2 with h | h | h | h
    · subst h
      exact ⟨Nat.min_le_left _ _, fun hge => hge⟩
    · rw [h]
      exact ⟨Nat.min_le_right _ _, fun _ => Nat.le_refl _⟩
    · rw [h]
      refine ⟨le_trans (Nat.min_le_right _ _) (by decide), fun _ => by decide⟩
    · rw [h]
      refine ⟨le_trans (Nat.min_le_right _ _) (by decide), fun _ => by decide⟩
  · intro st pid wf st2 p p2 hap hp hp2
    obtain ⟨p3, hp3, hst3⟩ := apply_workflow_findPost st pid wf st2 hap p hp
    rw [hp3] at hp2
    injection hp2 with h
    subst h
    rcases hst3 with h | h | h
    · rw [h]
      exact Nat.min_le_left _ _
    · rw [h]
      exact Nat.min_le_right _ _
    · rw [h]
      exact le_trans (Nat.min_le_right _ _) (by decide)
  · intro st pid act p p2 hp hp2
    exact queue_rank st pid act p p2 hp hp2

def c2St0AfterPost : AppState :=
  { c2St0 with posts :=
      [⟨"p1", 1, "hello", none, none, ⟨2024, 1, 1⟩, none, .pending⟩] }

def c2QSt : AppState :=
  ⟨[c2User], [c2Client],
   [⟨"p1", 1, "hello", none, none, ⟨2024, 1, 1⟩, none, .approved⟩], [], [], [], 2⟩

set_option maxRecDepth 1000000 in
theorem C2_amended_witness :
    (min Status.queued.rank Status.approved.rank ≤ Status.approved.rank ∧
      (Status.approved.rank ≤ Status.queued.rank →
        Status.approved.rank ≤ Status.approved.rank)) ∧
    min Status.pending.rank Status.queued.rank ≤ Status.queued.rank ∧
    Status.approved.rank ≤ Status.queued.rank := by
  refine ⟨?_, ?_, ?_⟩
  · exact C2_amended.1 c2St1 1 "p1" "approve"
      ⟨"p1", 1, "hello", none, none, ⟨2024, 1, 1⟩, none, .queued⟩
      ⟨"p1", 1, "hello", none, none, ⟨2024, 1, 1⟩, none, .approved⟩ (by rfl) (by rfl)
  · exact C2_amended.2.1 c2St0AfterPost "p1" (some c2Workflow) c2St1
      ⟨"p1", 1, "hello", none, none, ⟨2024, 1, 1⟩, none, .pending⟩
      ⟨"p1", 1, "hello", none, none, ⟨2024, 1, 1⟩, none, .queued⟩ (by rfl) (by rfl) (by rfl)
  · exact C2_amended.2.2 c2QSt "p1" "queue"
      ⟨"p1", 1, "hello", none, none, ⟨2024, 1, 1⟩, none, .approved⟩
      ⟨"p1", 1, "hello", none, none, ⟨2024, 1, 1⟩, none, .queued⟩ (by rfl) (by rfl)

/-! ## Claim C3 -/

def c3Workflow : Workflow := ⟨1, 1, "assign", json_dumps (assignDoc ["ghost"])⟩

def c3St : AppState :=
  ⟨[c2User], [c2Client],
   [⟨"p1", 1, "x", none, none, ⟨2024, 1, 1⟩, none, .pending⟩], [], [], [c3Workflow], 2⟩

set_option maxRecDepth 1000000 in
/-- C3 is the intent of the code but not its behavior: with a username that
resolves to no User, the Assign Approvers loop raises AttributeError at the
Approval lookup of app.py line 138, because user.id is read outside the
`if user` guard of line 136; the invocation dies instead of silently
skipping the unknown username. -/
theorem C3_code_bug_eval :
    findUserByName c3St (Json.str "ghost") = none ∧
    apply_workflow c3St "p1" (some c3Workflow) = .error .attrNone := by
  exact ⟨rfl, rfl⟩

/-! ## Claim C4 -/

def c4Workflow : Workflow := ⟨1, 1, "deadline", json_dumps (setDeadlineDoc "3")⟩

def c4St : AppState :=
  ⟨[c2User], [c2Client],
   [⟨"p1", 1, "x", none, none, ⟨2024, 1, 1⟩, none, .pending⟩], [], [], [c4Workflow], 2⟩

set_option maxRecDepth 1000000 in
/-- C4 is the intent of the code but not its behavior: a Set Deadline action
with days three applied to a post created on 2024-01-01 raises
AttributeError at app.py line 146, because the import on line 6 rebound the
name datetime to the class and datetime.timedelta does not exist; the
schedule date is never written. -/
theorem C4_code_bug_eval :
    apply_workflow c4St "p1" (some c4Workflow) = .error .attrTimedelta := by
  exact rfl

/-! ## Claim C5 -/

def c5StDate : AppState :=
  ⟨[c2User], [c2Client],
   [⟨"p1", 1, "x", none, none, ⟨2024, 1, 1⟩, some ⟨2024, 1, 1⟩, .approved⟩],
   [], [], [], 2⟩

def c5StNoDate : AppState :=
  ⟨[c2User], [c2Client],
   [⟨"p1", 1, "x", none, none, ⟨2024, 1, 1⟩, none, .approved⟩], [], [], [], 2⟩

def c5StPending : AppState :=
  ⟨[c2User], [c2Client],
   [⟨"p1", 1, "x", none, none, ⟨2024, 1, 1⟩, none, .pending⟩], [], [], [], 2⟩

/-- C5 is right about the NotApproved gate and about success without a
schedule date, but the DeadlinePassed branch is unreachable: with any
schedule date set, app.py line 359 evaluates datetime.date.today(), which
raises AttributeError because line 6 rebound the name datetime, so the
request dies instead of flashing DeadlinePassed. -/
theorem C5_code_bug_eval :
    queue c5StDate "p1" "queue" = (.crashed .attrDateToday, c5StDate) ∧
    queue c5StPending "p1" "queue" = (.notApproved, c5StPending) ∧
    (queue c5StNoDate "p1" "queue").1 = .queuedOk ∧
    (findPost (queue c5StNoDate "p1" "queue").2 "p1").map Post.status =
      some .queued := by
  exact ⟨rfl, rfl, rfl, rfl⟩

/-! ## Claim C6 -/

/-- C6: applying a workflow holding a single Assign Approvers action is
idempotent.  When every (post, user) pair starts with at most one Approval
row, a successful first invocation yields a state the second invocation
maps to itself unchanged; afterwards the post still has at most one
Approval row per user, and every username of the list that resolves to a
User has exactly one. -/
theorem C6_assign_idempotent (st st1 : AppState) (pid : String) (wid cid : Nat)
    (wname : String) (usernames : List String)
    (h1 : apply_workflow st pid (some ⟨wid, cid, wname, json_dumps (assignDoc usernames)⟩) =
      .ok st1)
    (huniq : ∀ uid, countApprovals st pid uid ≤ 1) :
    apply_workflow st1 pid (some ⟨wid, cid, wname, json_dumps (assignDoc usernames)⟩) =
      .ok st1 ∧
    (∀ uid, countApprovals st1 pid uid ≤ 1) ∧
    (∀ name ∈ usernames, ∀ u, findUserByName st (Json.str name) = some u →
      countApprovals st1 pid u.id = 1) := by
  rw [apply_workflow_assignDoc] at h1
  rw [apply_workflow_assignDoc]
  cases hp : findPost st pid with
  | none => rw [hp] at h1; try dsimp only at h1; cases h1
  | some post =>
    rw [hp] at h1
    try dsimp only at h1
    obtain ⟨hent, hmono, hmem, hel, hchar, hidem⟩ :=
      assignFold_main post.clientId pid (usernames.map Json.str) st st1 h1
    have hp1 : findPost st1 pid = some post := by
      unfold findPost
      rw [hent.2.1]
      exact hp
    rw [hp1]
    try dsimp only
    refine ⟨hidem, ?_, ?_⟩
    · intro uid
      rcases hchar pid uid with h | h
      · rw [h]; exact huniq uid
      · rw [h]; have := huniq uid; omega
    · intro name hn u hu
      have hj : Json.str name ∈ usernames.map Json.str := List.mem_map_of_mem _ hn
      obtain ⟨_, hge⟩ := hel (Json.str name) hj u hu
      rcases hchar pid u.id with h | h
      · rw [h] at hge ⊢
        have := huniq u.id
        omega
      · rw [h]
        have := huniq u.id
        omega

def c6User : User := ⟨1, "bob", false⟩

def c6Post : Post := ⟨"p1", 1, "x", none, none, ⟨2024, 1, 1⟩, none, .pending⟩

def c6St : AppState :=
  ⟨[c6User], [⟨1, 1, "acme", 7, none, []⟩], [c6Post], [], [], [], 1⟩

def c6St1 : AppState :=
  ⟨[c6User], [⟨1, 1, "acme", 7, none, [1]⟩], [c6Post],
   [⟨"p1", 1, .pending⟩], [], [], 1⟩

set_option maxRecDepth 1000000 in
theorem C6_assign_idempotent_witness :
    apply_workflow c6St "p1" (some ⟨1, 1, "assign", json_dumps (assignDoc ["bob"])⟩) =
      .ok c6St1 ∧
    (apply_workflow c6St1 "p1" (some ⟨1, 1, "assign", json_dumps (assignDoc ["bob"])⟩) =
      .ok c6St1 ∧
     (∀ uid, countApprovals c6St1 "p1" uid ≤ 1) ∧
     (∀ name ∈ ["bob"], ∀ u, findUserByName c6St (Json.str name) = some u →
       countApprovals c6St1 "p1" u.id = 1)) :=
  ⟨rfl, C6_assign_idempotent c6St c6St1 "p1" 1 1 "assign" ["bob"] rfl
    (fun _ => Nat.zero_le 1)⟩

/-! ## Claim C7 -/

/-- C7: saving a workflow and loading it back by the returned id gives the
same name and the identical ordered component list, for an owner of the
client and a workflow table that does not already hold the fresh primary
key. -/
theorem C7_save_load_roundtrip (st : AppState) (uid cid : Nat) (name : String)
    (components : Json) (c : Client)
    (hc : findClient st cid = some c) (hown : c.userId = uid)
    (hfresh : ∀ w ∈ st.workflows, ¬ w.id = st.nextWorkflowId) :
    (save_workflow st uid cid name components).1 = .saved st.nextWorkflowId ∧
    load_workflow (save_workflow st uid cid name components).2 uid st.nextWorkflowId =
      .loaded name components := by
  have hbeq : (c.userId == uid) = true := by rw [hown]; exact beq_self_eq_true uid
  have hsv : save_workflow st uid cid name components =
      (.saved st.nextWorkflowId,
        { st with
          workflows := st.workflows ++
            [⟨st.nextWorkflowId, cid, name, json_dumps components⟩],
          nextWorkflowId := st.nextWorkflowId + 1 }) := by
    unfold save_workflow
    rw [hc]
    dsimp only
    rw [hbeq]
    rfl
  rw [hsv]
  refine ⟨rfl, ?_⟩
  unfold load_workflow
  have hfw : findWorkflow
      { st with
        workflows := st.workflows ++
          [⟨st.nextWorkflowId, cid, name, json_dumps components⟩],
        nextWorkflowId := st.nextWorkflowId + 1 } st.nextWorkflowId =
      some ⟨st.nextWorkflowId, cid, name, json_dumps components⟩ := by
    unfold findWorkflow
    dsimp only
    rw [List.find?_append]
    have hnone : st.workflows.find? (fun w => w.id == st.nextWorkflowId) = none := by
      rw [List.find?_eq_none]
      intro w hw hcon
      exact hfresh w hw (eq_of_beq hcon)
    rw [hnone]
    have hone : List.find? (fun w => w.id == st.nextWorkflowId)
        [(⟨st.nextWorkflowId, cid, name, json_dumps components⟩ : Workflow)] =
        some ⟨st.nextWorkflowId, cid, name, json_dumps components⟩ := by
      simp
    rw [hone]
    rfl
  rw [hfw]
  dsimp only
  have hc2 : findClient
      { st with
        workflows := st.workflows ++
          [⟨st.nextWorkflowId, cid, name, json_dumps components⟩],
        nextWorkflowId := st.nextWorkflowId + 1 } cid = some c := hc
  rw [hc2]
  try dsimp only
  rw [hbeq]
  try dsimp only
  rw [json_roundtrip]
  rfl

def c7Client : Client := ⟨1, 1, "acme", 7, none, []⟩

def c7St : AppState := ⟨[⟨1, "ann", false⟩], [c7Client], [], [], [], [], 1⟩

theorem C7_save_load_roundtrip_witness :
    findClient c7St 1 = some c7Client ∧ c7Client.userId = 1 ∧
    (∀ w ∈ c7St.workflows, ¬ w.id = c7St.nextWorkflowId) ∧
    ((save_workflow c7St 1 1 "wf" (assignDoc ["bob"])).1 = .saved c7St.nextWorkflowId ∧
     load_workflow (save_workflow c7St 1 1 "wf" (assignDoc ["bob"])).2 1
       c7St.nextWorkflowId = .loaded "wf" (assignDoc ["bob"])) :=
  ⟨rfl, rfl, fun w hw => absurd hw (List.not_mem_nil w),
   C7_save_load_roundtrip c7St 1 1 "wf" (assignDoc ["bob"]) c7Client rfl rfl
     (fun w hw => absurd hw (List.not_mem_nil w))⟩

/-! ## Claim C8 -/

/-- C8: an edit whose nonempty schedule_date string strptime rejects fails
with invalid-date; the revision snapshot written before the validation
survives, and the post rows are left unchanged. -/
theorem C8_invalid_date (st : AppState) (uid : Nat) (pid : String)
    (content caption file : Option String) (s : String)
    (p : Post) (c : Client) (editor : User)
    (hp : findPost st pid = some p) (hc : findClient st p.clientId = some c)
    (hown : c.userId = uid) (he : findUser st uid = some editor)
    (hs : ¬ s = "") (hbad : parseDateYMD s = none) :
    edit_post st uid pid content caption (some s) file =
      (.invalidDate,
        { st with revisions := st.revisions ++ [p.create_revision editor.id] }) ∧
    (edit_post st uid pid content caption (some s) file).2.posts = st.posts := by
  have hbeq : (c.userId == uid) = true := by rw [hown]; exact beq_self_eq_true uid
  have hse : (s == "") = false := beq_eq_false_iff_ne.mpr hs
  have hmain : edit_post st uid pid content caption (some s) file =
      (.invalidDate,
        { st with revisions := st.revisions ++ [p.create_revision editor.id] }) := by
    unfold edit_post
    rw [hp]
    try dsimp only
    rw [hc]
    try dsimp only
    rw [hbeq]
    try dsimp only
    rw [he]
    try dsimp only
    rw [hse]
    simp only [Bool.not_false, reduceIte]
    rw [hbad]
    rfl
  exact ⟨hmain, by rw [hmain]⟩

def c8Post : Post := ⟨"p1", 1, "x", some "cap", none, ⟨2024, 1, 1⟩, none, .pending⟩

def c8St : AppState :=
  ⟨[⟨1, "ann", false⟩], [⟨1, 1, "acme", 7, none, []⟩], [c8Post], [], [], [], 1⟩

theorem C8_invalid_date_witness :
    findPost c8St "p1" = some c8Post ∧ parseDateYMD "not-a-date" = none ∧
    (edit_post c8St 1 "p1" (some "y") none (some "not-a-date") none =
      (.invalidDate,
        { c8St with revisions := c8St.revisions ++ [c8Post.create_revision 1] }) ∧
     (edit_post c8St 1 "p1" (some "y") none (some "not-a-date") none).2.posts =
       c8St.posts) :=
  ⟨rfl, rfl,
   C8_invalid_date c8St 1 "p1" (some "y") none none "not-a-date"
     c8Post ⟨1, 1, "acme", 7, none, []⟩ ⟨1, "ann", false⟩
     rfl rfl rfl rfl (by decide) rfl⟩

/-! ## Claim C9 -/

/-- C9: set_active_workflow with workflow id zero clears the client's
active_workflow_id and succeeds; with a nonzero id whose workflow belongs
to another client it fails with a 403 and the state is unchanged. -/
theorem C9_set_active_workflow (st : AppState) (uid cid wid : Nat)
    (c : Client) (w : Workflow)
    (hc : findClient st cid = some c) (hown : c.userId = uid)
    (hw : findWorkflow st wid = some w) (hne : ¬ w.clientId = cid)
    (hwid : ¬ wid = 0) :
    ((set_active_workflow st uid cid 0).1 = .okSet ∧
     findClient (set_active_workflow st uid cid 0).2 cid =
       some { c with activeWorkflowId := none }) ∧
    set_active_workflow st uid cid wid = (.wrongClient, st) := by
  have hbeq : (c.userId == uid) = true := by rw [hown]; exact beq_self_eq_true uid
  constructor
  · have h0 : set_active_workflow st uid cid 0 =
        (.okSet, updateClient st cid (fun c0 => { c0 with activeWorkflowId := none })) := by
      unfold set_active_workflow
      rw [hc]
      try dsimp only
      rw [hbeq]
      rfl
    rw [h0]
    refine ⟨rfl, ?_⟩
    try dsimp only
    rw [findClient_updateClient st cid (fun c0 => { c0 with activeWorkflowId := none })
      (fun c0 => rfl)]
    rw [hc]
    rfl
  · unfold set_active_workflow
    rw [hc]
    try dsimp only
    rw [hbeq]
    try dsimp only
    have hwz : (wid == 0) = false := beq_eq_false_iff_ne.mpr hwid
    rw [hwz]
    try dsimp only
    rw [hw]
    try dsimp only
    have hncb : (w.clientId == cid) = false := beq_eq_false_iff_ne.mpr hne
    rw [hncb]
    rfl

def c9Client : Client := ⟨1, 1, "acme", 7, some 5, []⟩

def c9Wf : Workflow := ⟨3, 2, "w", "x"⟩

def c9St : AppState := ⟨[⟨1, "ann", false⟩], [c9Client], [], [], [], [c9Wf], 6⟩

theorem C9_set_active_workflow_witness :
    findClient c9St 1 = some c9Client ∧ findWorkflow c9St 3 = some c9Wf ∧
    (((set_active_workflow c9St 1 1 0).1 = .okSet ∧
      findClient (set_active_workflow c9St 1 1 0).2 1 =
        some { c9Client with activeWorkflowId := none }) ∧
     set_active_workflow c9St 1 1 3 = (.wrongClient, c9St)) :=
  ⟨rfl, rfl, C9_set_active_workflow c9St 1 1 3 c9Client c9Wf rfl rfl rfl
    (by decide) (by decide)⟩

/-! ## Claim C10 -/

/-- C10: a post created under a client with no active workflow and an empty
approver set gets zero Approval rows; afterwards every approval POST by an
existing user fails with not-an-approver and leaves the state unchanged, any
sequence of such calls leaves the state fixed, and the post stays pending. -/
theorem C10_no_approvers (st : AppState) (uid cid : Nat) (pid content : String)
    (caption : Option String) (createdAt : Date) (c : Client)
    (hc : findClient st cid = some c) (hown : c.userId = uid)
    (hwf : c.activeWorkflowId = none) (happ : c.approvers = [])
    (hnew : findPost st pid = none)
    (hfresh : ∀ a ∈ st.approvals, ¬ a.postId = pid) :
    ∀ res st2,
      client_posts st uid cid pid content caption none none createdAt = (res, st2) →
      res = .created ∧ st2.approvals = st.approvals ∧ approvalsFor st2 pid = [] ∧
      (∀ uid2 u act, findUser st uid2 = some u →
        post_detail st2 uid2 pid act = (.notAnApprover, st2)) ∧
      (∀ calls : List (Nat × String),
        (∀ cu ∈ calls, ∃ u, findUser st cu.1 = some u) →
        calls.foldl (fun s cu => (post_detail s cu.1 pid cu.2).2) st2 = st2) ∧
      ∃ p, findPost st2 pid = some p ∧ p.status = .pending := by
  have hbeq : (c.userId == uid) = true := by rw [hown]; exact beq_self_eq_true uid
  intro res st2 h
  have hcp : client_posts st uid cid pid content caption none none createdAt =
      (.created,
        { st with
          posts := st.posts ++ [⟨pid, cid, content, caption, none, createdAt, none, .pending⟩],
          approvals := st.approvals ++
            c.approvers.map (fun aid => ⟨pid, aid, .pending⟩) }) := by
    unfold client_posts
    rw [hc]
    try dsimp only
    rw [hbeq]
    try dsimp only
    rw [hwf]
    rfl
  rw [hcp] at h
  rw [Prod.mk.injEq] at h
  obtain ⟨hres, hst⟩ := h
  subst hres
  subst hst
  have hA : ({ st with
      posts := st.posts ++ [⟨pid, cid, content, caption, none, createdAt, none, .pending⟩],
      approvals := st.approvals ++
        c.approvers.map (fun aid => ⟨pid, aid, .pending⟩) } : AppState).approvals =
      st.approvals := by
    dsimp only
    rw [happ]
    simp
  have hfp : findPost
      { st with
        posts := st.posts ++ [⟨pid, cid, content, caption, none, createdAt, none, .pending⟩],
        approvals := st.approvals ++
          c.approvers.map (fun aid => ⟨pid, aid, .pending⟩) } pid =
      some ⟨pid, cid, content, caption, none, createdAt, none, .pending⟩ := by
    unfold findPost
    dsimp only
    rw [List.find?_append]
    have hn2 : st.posts.find? (fun p => p.id == pid) = none := hnew
    rw [hn2]
    have hone : List.find? (fun p => p.id == pid)
        [(⟨pid, cid, content, caption, none, createdAt, none, .pending⟩ : Post)] =
        some ⟨pid, cid, content, caption, none, createdAt, none, .pending⟩ := by
      simp
    rw [hone]
    rfl
  have hcall : ∀ uid2 u act, findUser st uid2 = some u →
      post_detail
        { st with
          posts := st.posts ++ [⟨pid, cid, content, caption, none, createdAt, none, .pending⟩],
          approvals := st.approvals ++
            c.approvers.map (fun aid => ⟨pid, aid, .pending⟩) } uid2 pid act =
      (.notAnApprover,
        { st with
          posts := st.posts ++ [⟨pid, cid, content, caption, none, createdAt, none, .pending⟩],
          approvals := st.approvals ++
            c.approvers.map (fun aid => ⟨pid, aid, .pending⟩) }) := by
    intro uid2 u act hu
    have hfa : findApproval
        { st with
          posts := st.posts ++ [⟨pid, cid, content, caption, none, createdAt, none, .pending⟩],
          approvals := st.approvals ++
            c.approvers.map (fun aid => ⟨pid, aid, .pending⟩) } pid u.id = none := by
      unfold findApproval
      dsimp only
      rw [happ]
      simp only [List.map_nil, List.append_nil]
      rw [List.find?_eq_none]
      intro a ha hcon
      simp only [Bool.and_eq_true] at hcon
      exact hfresh a ha (eq_of_beq hcon.1)
    unfold post_detail
    rw [hfp]
    try dsimp only
    have hu2 : findUser
        { st with
          posts := st.posts ++ [⟨pid, cid, content, caption, none, createdAt, none, .pending⟩],
          approvals := st.approvals ++
            c.approvers.map (fun aid => ⟨pid, aid, .pending⟩) } uid2 = some u := hu
    rw [hu2]
    try dsimp only
    rw [hfa]
  refine ⟨rfl, hA, ?_, hcall, ?_, ⟨_, hfp, rfl⟩⟩
  · unfold approvalsFor
    rw [hA]
    rw [List.filter_eq_nil_iff]
    intro a ha hcon
    exact hfresh a ha (eq_of_beq hcon)
  · intro calls
    induction calls with
    | nil => intro _; rfl
    | cons cu rest ih =>
      intro hall
      obtain ⟨u, hu⟩ := hall cu (List.mem_cons_self cu rest)
      rw [List.foldl_cons]
      try dsimp only
      rw [hcall cu.1 u cu.2 hu]
      exact ih (fun x hx => hall x (List.mem_cons_of_mem cu hx))

def c10St : AppState :=
  ⟨[⟨1, "ann", false⟩], [⟨1, 1, "acme", 7, none, []⟩], [], [], [], [], 1⟩

def c10St2 : AppState :=
  ⟨[⟨1, "ann", false⟩], [⟨1, 1, "acme", 7, none, []⟩],
   [⟨"p1", 1, "hello", none, none, ⟨2024, 1, 1⟩, none, .pending⟩], [], [], [], 1⟩

theorem C10_no_approvers_witness :
    client_posts c10St 1 1 "p1" "hello" none none none ⟨2024, 1, 1⟩ =
      (.created, c10St2) ∧
    (CPRes.created = .created ∧ c10St2.approvals = c10St.approvals ∧
     approvalsFor c10St2 "p1" = [] ∧
     (∀ uid2 u act, findUser c10St uid2 = some u →
       post_detail c10St2 uid2 "p1" act = (.notAnApprover, c10St2)) ∧
     (∀ calls : List (Nat × String),
       (∀ cu ∈ calls, ∃ u, findUser c10St cu.1 = some u) →
       calls.foldl (fun s cu => (post_detail s cu.1 "p1" cu.2).2) c10St2 = c10St2) ∧
     ∃ p, findPost c10St2 "p1" = some p ∧ p.status = .pending) :=
  ⟨rfl, C10_no_approvers c10St 1 1 "p1" "hello" none ⟨2024, 1, 1⟩
    ⟨1, 1, "acme", 7, none, []⟩ rfl rfl rfl rfl rfl
    (fun a ha => absurd ha (List.not_mem_nil a)) .created c10St2 rfl⟩
